import Mathlib

/-!
# FED27_JS_React: a shallow embedding of the exercise classes and of `calculate`

Conventions of the embedding.

* A JavaScript number is modelled by an exact rational (`ℚ`): every finite double is a
  rational, and the properties below use only comparison, `+`, `-`, `*` and `/`;
  rounding, `NaN` and the infinities are outside the model.
* A JavaScript string is a finite sequence of UTF-16 code units (`JSString`), which is what
  `length`, `split('')` and a regular expression without the `u` flag work on.
* A method that mutates `this` becomes a function that takes the object and returns the
  object after the call, together with the returned value when there is one.
-/

set_option autoImplicit false

namespace FED27

/-! ## JavaScript values -/

/-- One UTF-16 code unit. -/
abbrev CodeUnit := Fin 65536

/-- A JavaScript string: its sequence of UTF-16 code units. -/
abbrev JSString := List CodeUnit

/-- UTF-16 encoding of one Unicode scalar value. -/
def utf16Char (c : Char) : List CodeUnit :=
  if c.toNat < 65536 then [Fin.ofNat c.toNat]
  else
    [Fin.ofNat (55296 + (c.toNat - 65536) / 1024), Fin.ofNat (56320 + (c.toNat - 65536) % 1024)]

/-- The JavaScript string written by a source literal. -/
def js (s : String) : JSString :=
  s.toList.flatMap utf16Char

/-- The values the modelled functions return: a number or a string. -/
inductive JSValue where
  | num (n : ℚ)
  | str (s : JSString)
  deriving DecidableEq

/-- Model of `Array.prototype.indexOf`: the first index holding an element equal to `x`,
else `-1`. -/
def arrayIndexOf {α : Type} [DecidableEq α] (xs : List α) (x : α) : Int :=
  if x ∈ xs then (xs.indexOf x : Int) else -1

/-! ## `BankAccount` (Solutions/5/script.js) -/

/-- The private field `#balance`. -/
structure BankAccount where
  balance : ℚ
  deriving DecidableEq

namespace BankAccount

/-- The `constructor(initialBalance)`. -/
def create (initialBalance : ℚ) : BankAccount :=
  { balance := initialBalance }

end BankAccount

/-! ## `Circle` (Solutions/5/script.js) -/

/-- The field `_radius`. -/
structure Circle where
  _radius : ℚ
  deriving DecidableEq

namespace Circle

/-- The `constructor(radius)`. -/
def create (radius : ℚ) : Circle :=
  { _radius := radius }

/-- Getter `get radius()`. -/
def radius (self : Circle) : ℚ :=
  self._radius

end Circle

/-! ## `PasswordValidator` (Solutions/5/script.js) -/

/-- The object `validate` returns. -/
structure ValidationResult where
  valid : Bool
  errors : List JSString
  deriving DecidableEq

namespace PasswordValidator

/-- Private method `#hasMinLength(password)`: `password.length >= 8`. -/
def hasMinLength (password : JSString) : Bool :=
  decide (password.length >= 8)

/-- Private method `#hasUppercase(password)`: `/[A-Z]/.test(password)`, some code unit in
`A`..`Z`. -/
def hasUppercase (password : JSString) : Bool :=
  password.any (fun c => decide (65 ≤ c.val ∧ c.val ≤ 90))

/-- Private method `#hasNumber(password)`: `/[0-9]/.test(password)`, some code unit in `0`..`9`. -/
def hasNumber (password : JSString) : Bool :=
  password.any (fun c => decide (48 ≤ c.val ∧ c.val ≤ 57))

/-- Method `validate(password)`. -/
def validate (password : JSString) : ValidationResult :=
  let errors : List JSString := []
  let errors :=
    if !hasMinLength password then errors ++ [js "Password must be at least 8 characters"]
    else errors
  let errors :=
    if !hasUppercase password then errors ++ [js "Password must contain an uppercase letter"]
    else errors
  let errors :=
    if !hasNumber password then errors ++ [js "Password must contain a number"]
    else errors
  { valid := decide (errors.length = 0), errors := errors }

end PasswordValidator

/-! ## `TrafficLight` (Solutions/5/script.js) -/

/-- The private field `#state`. -/
structure TrafficLight where
  state : JSString
  deriving DecidableEq

namespace TrafficLight

/-- The array `static STATES`. -/
def STATES : List JSString :=
  [js "red", js "green", js "yellow"]

/-- The `constructor()`. -/
def create : TrafficLight :=
  { state := js "red" }

/-- Method `getState()`. -/
def getState (self : TrafficLight) : JSString :=
  self.state

/-- The index `nextIndex` computed by `next()`; it always lies inside `STATES`. -/
def nextIndex (self : TrafficLight) : Fin STATES.length :=
  let currentIndex := arrayIndexOf STATES self.state
  ⟨((currentIndex + 1) % (STATES.length : Int)).toNat, by
    have h : (-1 : Int) ≤ arrayIndexOf STATES self.state := by
      unfold arrayIndexOf
      split <;> omega
    show ((arrayIndexOf STATES self.state + 1) % (3 : Int)).toNat < 3
    omega⟩

/-- Method `next()`: the light after the call, which is also the returned `this`. -/
def next (self : TrafficLight) : TrafficLight :=
  { self with state := STATES.get (nextIndex self) }

/-- Method `canGo()`. -/
def canGo (self : TrafficLight) : Bool :=
  decide (self.state = js "green")

/-- Method `shouldPrepareToStop()`. -/
def shouldPrepareToStop (self : TrafficLight) : Bool :=
  decide (self.state = js "yellow")

end TrafficLight

/-! ## `Observable` (Solutions/5/script.js)

An observer is a function object; the array methods compare function objects by identity, so
a callback is represented by an identifier. What the body of a callback does when it is
called is part of the program that uses the class: it is given by `body`, which lists the
calls the callback makes on the notifying observable (`subscribe`, or a function that an
earlier `subscribe` returned). Each call of a callback is recorded, with its argument, in a
trace. Callbacks that throw, or that call `setValue` themselves, are outside the model.
-/

/-- A callback, known by its identity. -/
abbrev Callback := Nat

/-- One call a callback body makes on the observable that is notifying it. -/
inductive Action where
  | subscribe (cb : Callback)
  | unsubscribe (cb : Callback)
  deriving DecidableEq

/-- Whether an action calls an unsubscribe function. -/
def Action.isUnsubscribe : Action → Bool
  | Action.subscribe _ => false
  | Action.unsubscribe _ => true

/-- None of the callbacks in `l` calls an unsubscribe function when it is called with `v`. -/
def keepsRegistrations {α : Type} (body : Callback → α → List Action) (l : List Callback)
    (v : α) : Prop :=
  ∀ cb ∈ l, ∀ a ∈ body cb v, a.isUnsubscribe = false

instance {α : Type} (body : Callback → α → List Action) (l : List Callback) (v : α) :
    Decidable (keepsRegistrations body l v) := by
  unfold keepsRegistrations
  infer_instance

/-- The private fields `#value` and `#observers`. -/
structure Observable (α : Type) where
  value : α
  observers : List Callback

namespace Observable

variable {α : Type}

/-- The `constructor(initialValue)`. -/
def create (initialValue : α) : Observable α :=
  { value := initialValue, observers := [] }

/-- Method `getValue()`. -/
def getValue (self : Observable α) : α :=
  self.value

/-- Method `subscribe(callback)`: the observable after `this.#observers.push(callback)`. The
returned function is `unsubscribe · callback`. -/
def subscribe (self : Observable α) (callback : Callback) : Observable α :=
  { self with observers := self.observers ++ [callback] }

/-- The function returned by `subscribe(callback)`: `indexOf`, then `splice(index, 1)` when
the index is not `-1`. -/
def unsubscribe (self : Observable α) (callback : Callback) : Observable α :=
  let index := arrayIndexOf self.observers callback
  if index > -1 then { self with observers := self.observers.eraseIdx index.toNat }
  else self

/-- Runs the calls of one callback body, in order. -/
def runActions (self : Observable α) : List Action → Observable α
  | [] => self
  | Action.subscribe cb :: rest => runActions (self.subscribe cb) rest
  | Action.unsubscribe cb :: rest => runActions (self.unsubscribe cb) rest

/-- The loop `this.#observers.forEach((callback) => callback(this.#value))` from index `k`
on, with `remaining` indices left of the length read when `forEach` started. An index that
is no longer in the array is skipped; otherwise the element now at that index is called. -/
def forEachFrom (body : Callback → α → List Action) (self : Observable α)
    (trace : List (Callback × α)) (k : Nat) : Nat → Observable α × List (Callback × α)
  | 0 => (self, trace)
  | remaining + 1 =>
    match self.observers.get? k with
    | none => forEachFrom body self trace (k + 1) remaining
    | some callback =>
      forEachFrom body (runActions self (body callback self.value))
        (trace ++ [(callback, self.value)]) (k + 1) remaining

/-- Method `setValue(newValue)`: the observable after the call and the trace of callback
calls. -/
def setValue (body : Callback → α → List Action) (self : Observable α) (newValue : α) :
    Observable α × List (Callback × α) :=
  let self := { self with value := newValue }
  forEachFrom body self [] 0 self.observers.length

end Observable

/-- A program in which callback `1` calls its own unsubscribe function when notified, and
every other callback leaves the observable alone. -/
def selfRemoving : Callback → Nat → List Action :=
  fun cb _ => if cb = 1 then [Action.unsubscribe 1] else []

/-- A program in which callback `1` subscribes a further callback `3` when notified, and
every other callback leaves the observable alone. -/
def addsObserver : Callback → Nat → List Action :=
  fun cb _ => if cb = 1 then [Action.subscribe 3] else []

/-- A program whose callbacks leave the observable alone. -/
def quiet : Callback → Nat → List Action :=
  fun _ _ => []

/-! ## `calculate` (Exercises/1/ex1.js) -/

/-- The arithmetic operators `calculate` can evaluate. -/
inductive ArithOp where
  | add
  | sub
  | mul
  | div
  deriving DecidableEq

/-- The `switch` of `calculate`: the returned value, and the arithmetic operators that were
evaluated on the way. -/
def calculateRun (n1 n2 : ℚ) (operation : JSString) : JSValue × List ArithOp :=
  if operation = js "add" then (JSValue.num (n1 + n2), [ArithOp.add])
  else if operation = js "subtract" then (JSValue.num (n1 - n2), [ArithOp.sub])
  else if operation = js "multiply" then (JSValue.num (n1 * n2), [ArithOp.mul])
  else if operation = js "divide" then
    if n2 = 0 then (JSValue.str (js "Error: Division by zero"), [])
    else (JSValue.num (n1 / n2), [ArithOp.div])
  else (JSValue.str (js "Invalid operation"), [])

/-- Function `calculate(n1, n2, operation)`. -/
def calculate (n1 n2 : ℚ) (operation : JSString) : JSValue :=
  (calculateRun n1 n2 operation).1

/-! ## `QueryBuilder` (Solutions/5/script.js) -/

/-- The fields `_select`, `_from`, `_where` and `_orderBy`. -/
structure QueryBuilder where
  _select : JSString
  _from : JSString
  _where : JSString
  _orderBy : JSString
  deriving DecidableEq

namespace QueryBuilder

/-- The `constructor()`: four empty strings. -/
def create : QueryBuilder :=
  { _select := js "", _from := js "", _where := js "", _orderBy := js "" }

/-- Method `select(fields)`; the result is the returned `this`. -/
def select (self : QueryBuilder) (fields : JSString) : QueryBuilder :=
  { self with _select := fields }

/-- Method `from(table)`; the result is the returned `this`. -/
def from_ (self : QueryBuilder) (table : JSString) : QueryBuilder :=
  { self with _from := table }

/-- Method `where(condition)`; the result is the returned `this`. -/
def where_ (self : QueryBuilder) (condition : JSString) : QueryBuilder :=
  { self with _where := condition }

/-- Method `orderBy(field, direction)`: stores the template string holding the field, one
space and the direction; the result is the returned `this`. -/
def orderBy (self : QueryBuilder) (field direction : JSString) : QueryBuilder :=
  { self with _orderBy := field ++ js " " ++ direction }

/-- Method `build()`. A string is truthy exactly when it is not empty. -/
def build (self : QueryBuilder) : JSString :=
  let query := js "SELECT " ++ self._select ++ js " FROM " ++ self._from
  let query := if self._where ≠ [] then query ++ (js " WHERE " ++ self._where) else query
  let query := if self._orderBy ≠ [] then query ++ (js " ORDER BY " ++ self._orderBy) else query
  query

/-- One chained method call on a builder. -/
inductive Call where
  | select (fields : JSString)
  | from_ (table : JSString)
  | where_ (condition : JSString)
  | orderBy (field direction : JSString)
  deriving DecidableEq

/-- Performs one call. -/
def call (self : QueryBuilder) : Call → QueryBuilder
  | Call.select fields => self.select fields
  | Call.from_ table => self.from_ table
  | Call.where_ condition => self.where_ condition
  | Call.orderBy field direction => self.orderBy field direction

/-- The builder reached from `new QueryBuilder()` by a chain of calls. -/
def chain (calls : List Call) : QueryBuilder :=
  calls.foldl call create

/-- The arguments of the latest `orderBy` call of a chain, if there is one, starting from
what an earlier part of the chain left. -/
def latestOrderBy (start : Option (JSString × JSString)) (calls : List Call) :
    Option (JSString × JSString) :=
  calls.foldl (fun acc c =>
    match c with
    | Call.orderBy field direction => some (field, direction)
    | _ => acc) start

end QueryBuilder

/-! ## `StringBuilder` (Solutions/5/script.js) -/

/-- The field `_string`. -/
structure StringBuilder where
  _string : JSString
  deriving DecidableEq

namespace StringBuilder

/-- The `constructor()`. -/
def create : StringBuilder :=
  { _string := js "" }

/-- Method `append(str)`; the result is the returned `this`. -/
def append (self : StringBuilder) (str : JSString) : StringBuilder :=
  { self with _string := self._string ++ str }

/-- Method `prepend(str)`; the result is the returned `this`. -/
def prepend (self : StringBuilder) (str : JSString) : StringBuilder :=
  { self with _string := str ++ self._string }

/-- The call `split('')`: one string per code unit. -/
def splitEmpty (s : JSString) : List JSString :=
  s.map (fun c => [c])

/-- The call `join('')`. -/
def joinEmpty (parts : List JSString) : JSString :=
  parts.flatten

/-- Method `reverse()`: `split('').reverse().join('')`; the result is the returned `this`. -/
def reverse (self : StringBuilder) : StringBuilder :=
  { self with _string := joinEmpty (splitEmpty self._string).reverse }

/-- Method `toString()`. -/
def toString (self : StringBuilder) : JSString :=
  self._string

end StringBuilder

/-! ## The future and scheduler core (spec sections 3 and 4)

The lesson scripts use the promise and timer primitives of the host; the repository holds
no implementation of them. The definitions of this part are the Future and Scheduler of the
specification, written out from its data model and component design. The scripts of the
lessons that call them are translated from the source.

A callable is known by an identifier; what it does when called is given by a `Program`, as
the list of calls it makes on the core and how it completes.
-/

/-- Modelled from the spec: a reference to a Future. -/
abbrev FutureId := Nat

/-- Modelled from the spec: the values `T` and errors `E` a future settles with (the core is
absent from the sources). Sequences are built from `nil` and `cons`; `future` is a value
that is itself a Future, the one adoptable kind of value. -/
inductive Value where
  | undefined
  | num (n : Int)
  | str (s : JSString)
  | error (message : JSString)
  | nil
  | cons (head : Value) (tail : Value)
  | aggregate (errors : Value)
  | future (f : FutureId)
  deriving DecidableEq

/-- Modelled from the spec: the ordered sequence of values a combinator settles with. -/
def Value.ofList : List Value → Value
  | [] => Value.nil
  | v :: vs => Value.cons v (Value.ofList vs)

/-- Modelled from the spec: a callable work unit or handler, known by its identity. -/
abbrev Callable := Nat

/-- Modelled from the spec: the state of a Future, one of `Pending`, `Fulfilled(value)`,
`Rejected(error)`. -/
inductive FutureState where
  | pending
  | fulfilled (value : Value)
  | rejected (error : Value)
  deriving DecidableEq

/-- Modelled from the spec: a reaction record, the continuation pair with the downstream
Future it must settle; or the bookkeeping entry of a combinator for one of its inputs; or
the subscription of an adopting Future `outer` to the inner Future it mirrors. -/
inductive Reaction where
  | handlers (onFulfilled onRejected : Option Callable) (downstream : FutureId)
  | element (combinator : Nat) (index : Nat)
  | adopt (outer : FutureId)
  deriving DecidableEq

/-- Modelled from the spec: a Future, its state, its ordered list of reaction records and,
once it has adopted another Future, the inner Future it has subscribed to. An adopting
Future remains Pending and any further settlement attempt on it is a no-op. -/
structure Future where
  state : FutureState
  reactions : List Reaction
  adopting : Option FutureId
  deriving DecidableEq

/-- Modelled from the spec: an item of the microtask queue, a submitted work unit or the
dispatch of a reaction with the terminal state of its upstream Future. -/
inductive Job where
  | task (work : Callable)
  | reaction (r : Reaction) (upstream : FutureState)
  deriving DecidableEq

/-- Modelled from the spec: a ScheduledItem of the macrotask queue, with its logical
due-time; its insertion sequence number is also its cancellation token. -/
structure ScheduledItem where
  work : Callable
  due : Nat
  token : Nat
  deriving DecidableEq

/-- Modelled from the spec: the static combinators that collect their inputs. -/
inductive CombinatorKind where
  | all
  | any
  deriving DecidableEq

/-- Modelled from the spec: the bookkeeping of one `all` or `any` call, the values (for
`all`) or rejection reasons (for `any`) collected so far by input position, the number of
inputs still awaited, and the Future the combinator returned. -/
structure Combinator where
  kind : CombinatorKind
  slots : List (Option Value)
  remaining : Nat
  result : FutureId
  deriving DecidableEq

/-- Modelled from the spec: the bookkeeping record of a combinator that has just been
called on `inputs` futures, nothing collected yet. -/
def Combinator.fresh (kind : CombinatorKind) (inputs : Nat) (result : FutureId) : Combinator :=
  { kind := kind, slots := List.replicate inputs none, remaining := inputs, result := result }

/-- Modelled from the spec: the terminal state of an input that a combinator collects, a
fulfilment for `all` and a rejection for `any`. -/
def CombinatorKind.collected : CombinatorKind → Value → FutureState
  | CombinatorKind.all, v => FutureState.fulfilled v
  | CombinatorKind.any, e => FutureState.rejected e

/-- Modelled from the spec: the terminal state of an input that decides a combinator at
once, a rejection for `all` and a fulfilment for `any`. -/
def CombinatorKind.decisive : CombinatorKind → Value → FutureState
  | CombinatorKind.all, e => FutureState.rejected e
  | CombinatorKind.any, v => FutureState.fulfilled v

/-- Modelled from the spec: first settlement wins, a Pending state takes the settlement
asked for and a terminal state stays. -/
def FutureState.keepFirst (current : FutureState) (request : Option FutureState) : FutureState :=
  match current, request with
  | FutureState.pending, some s => s
  | current, _ => current

/-- Modelled from the spec: one call that application code makes on the core. -/
inductive Op where
  | log (v : Value)
  | scheduleMicrotask (work : Callable)
  | scheduleMacrotask (work : Callable) (delay : Nat)
  | cancel (token : Nat)
  | create
  | resolved (v : Value)
  | rejected (e : Value)
  | fulfill (f : FutureId) (v : Value)
  | reject (f : FutureId) (e : Value)
  | then_ (f : FutureId) (onFulfilled onRejected : Option Callable)
  | catchError (f : FutureId) (onRejected : Callable)
  | all (inputs : List FutureId)
  | any (inputs : List FutureId)
  deriving DecidableEq

/-- Modelled from the spec: how a called handler or task ends, returning a plain value or
raising. -/
inductive CallResult where
  | returns (v : Value)
  | throws (e : Value)
  deriving DecidableEq

/-- Modelled from the spec: what a callable does when it is called, the calls it makes on
the core, then how it ends. -/
structure Body where
  ops : List Op
  result : CallResult
  deriving DecidableEq

/-- Modelled from the spec: the application code behind every callable, as a function of the
argument it is called with. -/
abbrev Program := Callable → Value → Body

/-- Modelled from the spec: what an observer of a run sees, a logged value or the start of
a call of a callable with its argument. -/
inductive Event where
  | log (v : Value)
  | call (work : Callable) (arg : Value)
  deriving DecidableEq

/-- Modelled from the spec: the Scheduler with its two queues, its logical clock and its
unhandled-error sink, together with the Futures and combinator records that exist, and
the trace of what has run. -/
structure World where
  futures : List Future
  combinators : List Combinator
  microtaskQueue : List Job
  macrotaskQueue : List ScheduledItem
  now : Nat
  nextToken : Nat
  trace : List Event
  sink : List Value
  deriving DecidableEq

namespace World

/-- Modelled from the spec: Scheduler init, empty queues and nothing created yet. -/
def init : World :=
  { futures := [], combinators := [], microtaskQueue := [], macrotaskQueue := [], now := 0,
    nextToken := 0, trace := [], sink := [] }

/-- The values logged so far, in order. -/
def output (w : World) : List Value :=
  w.trace.filterMap (fun e => match e with
    | Event.log v => some v
    | Event.call _ _ => none)

/-- The callables called so far with their arguments, in order. -/
def calls (w : World) : List (Callable × Value) :=
  w.trace.filterMap (fun e => match e with
    | Event.log _ => none
    | Event.call work arg => some (work, arg))

/-- Modelled from the spec: `create()`, a new Pending future; its reference is the number of
futures created before it. -/
def create (w : World) : World :=
  { w with futures := w.futures ++
      [{ state := FutureState.pending, reactions := [], adopting := none }] }

/-- Modelled from the spec: the one-time transition of a Future. If it is Pending it takes
the terminal state and every pending reaction is enqueued as a microtask, in registration
order, and discarded; if it is not Pending, nothing happens. -/
def settle (w : World) (f : FutureId) (s : FutureState) : World :=
  match w.futures[f]? with
  | some ⟨FutureState.pending, reactions, adopting⟩ =>
    { w with
      futures := w.futures.set f { state := s, reactions := [], adopting := adopting }
      microtaskQueue := w.microtaskQueue ++ reactions.map (fun r => Job.reaction r s) }
  | _ => w

/-- Modelled from the spec: registering a reaction record. While the Future is Pending the
record is appended; if it is already settled the reaction is scheduled as a microtask
immediately, never invoked synchronously. -/
def register (w : World) (f : FutureId) (r : Reaction) : World :=
  match w.futures[f]? with
  | none => w
  | some ⟨FutureState.pending, reactions, adopting⟩ =>
    { w with futures := w.futures.set f ⟨FutureState.pending, reactions ++ [r], adopting⟩ }
  | some ⟨s, _, _⟩ =>
    { w with microtaskQueue := w.microtaskQueue ++ [Job.reaction r s] }

/-- Modelled from the spec: `fulfill(value)`. On a Pending Future that has not adopted, a
plain value is the transition to `Fulfilled(value)`; a value that is itself a Future is
adopted, the Future remains Pending and subscribes to the inner Future. Otherwise the call is
a no-op. -/
def fulfill (w : World) (f : FutureId) (value : Value) : World :=
  match w.futures[f]? with
  | some ⟨FutureState.pending, reactions, none⟩ =>
    match value with
    | Value.future inner =>
      World.register
        { w with futures := w.futures.set f ⟨FutureState.pending, reactions, some inner⟩ }
        inner (Reaction.adopt f)
    | _ => w.settle f (FutureState.fulfilled value)
  | _ => w

/-- Modelled from the spec: `reject(error)`. On a Pending Future that has not adopted it is
the transition to `Rejected(error)`; otherwise the call is a no-op. -/
def reject (w : World) (f : FutureId) (error : Value) : World :=
  match w.futures[f]? with
  | some ⟨FutureState.pending, _, none⟩ => w.settle f (FutureState.rejected error)
  | _ => w

/-- Modelled from the spec: `then(onFulfilled?, onRejected?)`, which returns a new downstream
Future and registers a reaction record. -/
def then_ (w : World) (f : FutureId) (onFulfilled onRejected : Option Callable) : World :=
  w.create.register f (Reaction.handlers onFulfilled onRejected w.futures.length)

/-- Modelled from the spec: `catchError(onRejected)`, sugar for `then(undefined,
onRejected)`. -/
def catchError (w : World) (f : FutureId) (onRejected : Callable) : World :=
  w.then_ f none (some onRejected)

/-- Modelled from the spec: `scheduleMicrotask(task)` appends to the microtask queue. -/
def scheduleMicrotask (w : World) (work : Callable) : World :=
  { w with microtaskQueue := w.microtaskQueue ++ [Job.task work] }

/-- Modelled from the spec: insertion into the macrotask queue, ordered by due-time, after
the items already there with the same due-time. -/
def insertByDue (item : ScheduledItem) : List ScheduledItem → List ScheduledItem
  | [] => [item]
  | x :: xs => if x.due ≤ item.due then x :: insertByDue item xs else item :: x :: xs

/-- Modelled from the spec: `scheduleMacrotask(task, delay)` inserts into the macrotask
queue ordered by `(now + delay, insertion sequence)`; the token it returns is the value
of `nextToken` before the call. -/
def scheduleMacrotask (w : World) (work : Callable) (delay : Nat) : World :=
  { w with
    macrotaskQueue :=
      insertByDue { work := work, due := w.now + delay, token := w.nextToken } w.macrotaskQueue
    nextToken := w.nextToken + 1 }

/-- Modelled from the spec: `cancel(token)` removes the referenced macrotask if it has not
run; otherwise nothing happens. -/
def cancel (w : World) (token : Nat) : World :=
  { w with macrotaskQueue := w.macrotaskQueue.filter (fun item => decide (item.token ≠ token)) }

/-- Modelled from the spec: what a combinator of each kind settles with when it has no
input to wait for or has collected every input. -/
def completion (kind : CombinatorKind) (collected : List Value) : FutureState :=
  match kind with
  | CombinatorKind.all => FutureState.fulfilled (Value.ofList collected)
  | CombinatorKind.any => FutureState.rejected (Value.aggregate (Value.ofList collected))

/-- Registers the bookkeeping reaction of a combinator on each input, by position. -/
def registerAll (w : World) (combinator : Nat) : List FutureId → Nat → World
  | [], _ => w
  | f :: fs, index =>
    registerAll (w.register f (Reaction.element combinator index)) combinator fs (index + 1)

/-- Modelled from the spec: the static combinators `all(futures)` and `any(futures)`. A new
Future is returned, a bookkeeping record is created and a reaction is registered on every
input; with no input the result is settled at once. -/
def combine (w : World) (kind : CombinatorKind) (inputs : List FutureId) : World :=
  let result := w.futures.length
  let combinator := w.combinators.length
  let w := w.create
  let w := { w with combinators := w.combinators ++
    [Combinator.fresh kind inputs.length result] }
  let w := if inputs = [] then w.settle result (completion kind []) else w
  registerAll w combinator inputs 0

end World

namespace Combinator

/-- Modelled from the spec: a combinator collects one value (for `all`) or one rejection
reason (for `any`) at its input position; when it was the last one awaited, the combinator
asks to settle its result with the ordered sequence of what it collected. -/
def collect (c : Combinator) (index : Nat) (x : Value) : Combinator × Option FutureState :=
  let slots := c.slots.set index (some x)
  let remaining := c.remaining - 1
  ({ c with slots := slots, remaining := remaining },
    if remaining = 0 then some (World.completion c.kind (slots.filterMap id)) else none)

/-- Modelled from the spec: a combinator observes the terminal state of the input at
`index`. `all` collects a fulfilment and asks to reject with an observed rejection; `any`
collects a rejection and asks to fulfil with an observed fulfilment. The result Future
keeps the first settlement asked for. -/
def observe (c : Combinator) (index : Nat) (upstream : FutureState) :
    Combinator × Option FutureState :=
  match c.kind, upstream with
  | _, FutureState.pending => (c, none)
  | CombinatorKind.all, FutureState.fulfilled v => c.collect index v
  | CombinatorKind.all, FutureState.rejected e => (c, some (FutureState.rejected e))
  | CombinatorKind.any, FutureState.fulfilled v => (c, some (FutureState.fulfilled v))
  | CombinatorKind.any, FutureState.rejected e => c.collect index e

end Combinator

namespace World

/-- Modelled from the spec: one call of application code on the core. -/
def execOp (w : World) : Op → World
  | Op.log v => { w with trace := w.trace ++ [Event.log v] }
  | Op.scheduleMicrotask work => w.scheduleMicrotask work
  | Op.scheduleMacrotask work delay => w.scheduleMacrotask work delay
  | Op.cancel token => w.cancel token
  | Op.create => w.create
  | Op.resolved v => w.create.fulfill w.futures.length v
  | Op.rejected e => w.create.reject w.futures.length e
  | Op.fulfill f v => w.fulfill f v
  | Op.reject f e => w.reject f e
  | Op.then_ f onFulfilled onRejected => w.then_ f onFulfilled onRejected
  | Op.catchError f onRejected => w.catchError f onRejected
  | Op.all inputs => w.combine CombinatorKind.all inputs
  | Op.any inputs => w.combine CombinatorKind.any inputs

/-- Modelled from the spec: a run of synchronous application code, call after call. -/
def exec (w : World) (ops : List Op) : World :=
  ops.foldl execOp w

/-- Modelled from the spec: calling a handler of a reaction. The downstream Future is
fulfilled with the value the handler returns, adopting it when it is a Future, and rejected
with what it raises. -/
def invoke (program : Program) (w : World) (handler : Callable) (arg : Value)
    (downstream : FutureId) : World :=
  let w := exec { w with trace := w.trace ++ [Event.call handler arg] } (program handler arg).ops
  match (program handler arg).result with
  | CallResult.returns v => w.fulfill downstream v
  | CallResult.throws e => w.reject downstream e

/-- Modelled from the spec: dispatch of a reaction. Exactly one of the two handlers runs,
selected by the terminal state of the upstream; an absent handler passes the outcome through
unchanged. An adopting Future takes the outcome of the inner Future. A bookkeeping reaction
updates its combinator record. -/
def dispatch (program : Program) (w : World) (r : Reaction) (upstream : FutureState) : World :=
  match r with
  | Reaction.handlers onFulfilled onRejected downstream =>
    match upstream with
    | FutureState.pending => w
    | FutureState.fulfilled v =>
      match onFulfilled with
      | none => w.settle downstream (FutureState.fulfilled v)
      | some handler => invoke program w handler v downstream
    | FutureState.rejected e =>
      match onRejected with
      | none => w.settle downstream (FutureState.rejected e)
      | some handler => invoke program w handler e downstream
  | Reaction.adopt outer =>
    match upstream with
    | FutureState.pending => w
    | _ => w.settle outer upstream
  | Reaction.element combinator index =>
    match w.combinators[combinator]? with
    | none => w
    | some c =>
      let w := { w with combinators := w.combinators.set combinator (c.observe index upstream).1 }
      match (c.observe index upstream).2 with
      | none => w
      | some s => w.settle c.result s

/-- Modelled from the spec: running one dequeued item to completion. What a task raises is
caught at the dispatch boundary and reported to the sink. -/
def runJob (program : Program) (w : World) : Job → World
  | Job.task work =>
    let w := exec { w with trace := w.trace ++ [Event.call work Value.undefined] }
      (program work Value.undefined).ops
    match (program work Value.undefined).result with
    | CallResult.returns _ => w
    | CallResult.throws e => { w with sink := w.sink ++ [e] }
  | Job.reaction r upstream => dispatch program w r upstream

/-- Modelled from the spec: draining the microtask queue to exhaustion, in FIFO order,
including the microtasks enqueued during the drain. The result is `none` when `fuel` items
did not suffice. -/
def drainMicrotasks (program : Program) : Nat → World → Option World
  | 0, w =>
    match w.microtaskQueue with
    | [] => some w
    | _ :: _ => none
  | fuel + 1, w =>
    match w.microtaskQueue with
    | [] => some w
    | job :: rest =>
      drainMicrotasks program fuel (runJob program { w with microtaskQueue := rest } job)

/-- Modelled from the spec: `runOneMacrotask()`. The microtask queue is drained first; then,
if the first macrotask is due, it is popped and run and the microtasks it produced are
drained, and the result is `true`; otherwise the result is `false`. -/
def runOneMacrotask (program : Program) (fuel : Nat) (w : World) : Option (Bool × World) :=
  match drainMicrotasks program fuel w with
  | none => none
  | some w =>
    match w.macrotaskQueue with
    | [] => some (false, w)
    | item :: rest =>
      if item.due ≤ w.now then
        match drainMicrotasks program fuel
          (runJob program { w with macrotaskQueue := rest } (Job.task item.work)) with
        | none => none
        | some w => some (true, w)
      else some (false, w)

/-- Modelled from the spec: `drainAll()`, for headless execution. Macrotasks are run one
after the other, each followed by a full microtask drain, until both queues are empty; the
logical clock moves on to the due-time of the next macrotask. The result is `none` when
`fuel` did not suffice. -/
def drainAll (program : Program) : Nat → World → Option World
  | 0, _ => none
  | fuel + 1, w =>
    match drainMicrotasks program (fuel + 1) w with
    | none => none
    | some w =>
      match w.macrotaskQueue with
      | [] => some w
      | item :: _ =>
        match runOneMacrotask program (fuel + 1) { w with now := max w.now item.due } with
        | none => none
        | some (_, w) => drainAll program fuel w

/-- Modelled from the spec: a whole run, the synchronous script first, then the queues
until they are empty. -/
def runScript (program : Program) (script : List Op) (fuel : Nat) : Option World :=
  drainAll program fuel (exec init script)

end World

/-- Modelled from the spec: the Future `f` still takes a settling call, it is Pending and has
not adopted. -/
def World.accepts (w : World) (f : FutureId) : Prop :=
  ∃ reactions, w.futures[f]? =
    some { state := FutureState.pending, reactions := reactions, adopting := none }

/-- Modelled from the spec: a call that settles a Future. -/
inductive SettleCall where
  | fulfill (value : Value)
  | reject (error : Value)
  deriving DecidableEq

/-- Modelled from the spec: performs one settling call on the Future `f`. -/
def World.settleCall (w : World) (f : FutureId) : SettleCall → World
  | SettleCall.fulfill value => w.fulfill f value
  | SettleCall.reject error => w.reject f error

/-- Modelled from the spec: performs a sequence of settling calls on the Future `f`. -/
def World.settleCalls (w : World) (f : FutureId) (calls : List SettleCall) : World :=
  calls.foldl (fun w c => w.settleCall f c) w

/-! ## The lesson scripts that call the core -/

/-- The executor of `stateTest` (Lessons/6/script.js, lines 161-165), which runs
synchronously: `resolve('first')`, `resolve('second')`, `reject('error')` on the new
promise, Future `0`. -/
def stateTest : List Op :=
  [Op.create, Op.fulfill 0 (Value.str (js "first")), Op.fulfill 0 (Value.str (js "second")),
    Op.reject 0 (Value.str (js "error"))]

/-- The script of Lessons/6/script.js, lines 265-270: log 'start', a 0 ms timeout (callable
`0`), `Promise.resolve()` (Future `0`) with two chained `then` callbacks (callables `1` and
`2`, on Futures `0` and `1`), log 'end'. -/
def orderingScript : List Op :=
  [Op.log (Value.str (js "start")),
    Op.scheduleMacrotask 0 0,
    Op.resolved Value.undefined,
    Op.then_ 0 (some 1) none,
    Op.then_ 1 (some 2) none,
    Op.log (Value.str (js "end"))]

/-- The callbacks of `orderingScript`: each logs its message and returns nothing. -/
def orderingProgram : Program :=
  fun work _ =>
    { ops := [Op.log (Value.str
        (if work = 0 then js "timeout" else if work = 1 then js "promise 1" else js "promise 2"))],
      result := CallResult.returns Value.undefined }

/-- A program whose callables make no call on the core and return nothing. -/
def idleProgram : Program :=
  fun _ _ => { ops := [], result := CallResult.returns Value.undefined }

/-- The trace of `later` continues the trace of `w`: nothing that had run is undone. -/
def World.Continues (w later : World) : Prop :=
  ∃ events, later.trace = w.trace ++ events

/-- The notes of Lessons/6/script.js, lines 183-186: `Promise.resolve('instant')` (Future
`0`), log 'A', a `then` callback (callable `0`) on the resolved promise, log 'B'. -/
def alreadyResolvedScript : List Op :=
  [Op.resolved (Value.str (js "instant")),
    Op.log (Value.str (js "A - Before .then()")),
    Op.then_ 0 (some 0) none,
    Op.log (Value.str (js "B - After .then()"))]

/-- The callback of `alreadyResolvedScript`: it logs 'C' and returns nothing. -/
def alreadyResolvedProgram : Program :=
  fun _ _ =>
    { ops := [Op.log (Value.str (js "C - Inside .then()"))],
      result := CallResult.returns Value.undefined }

/-- A combinator record observes a sequence of terminal states of its inputs, in the order
in which their reactions are dispatched; the second component follows the state of the
result Future, which keeps the first settlement asked for. -/
def Combinator.observeAll (c : Combinator) (result : FutureState) :
    List (Nat × FutureState) → Combinator × FutureState
  | [] => (c, result)
  | observation :: rest =>
    observeAll (c.observe observation.1 observation.2).1
      (result.keepFirst (c.observe observation.1 observation.2).2) rest

/-- Dispatches the bookkeeping reactions of one combinator for a sequence of observed
terminal states of its inputs, in that order. -/
def World.dispatchAll (program : Program) (w : World) (combinator : Nat)
    (observations : List (Nat × FutureState)) : World :=
  observations.foldl
    (fun w observation =>
      World.dispatch program w (Reaction.element combinator observation.1) observation.2) w

/-- The script of Lessons/6/script.js, lines 398-402: three resolved promises (Futures `0`,
`1`, `2`) and `Promise.all` of them (Future `3`). -/
def allScript : List Op :=
  [Op.resolved (Value.num 1), Op.resolved (Value.num 2), Op.resolved (Value.num 3),
    Op.all [0, 1, 2]]

/-- The same script with the second input rejected with 'x', as in section 8 of the
specification. -/
def allRejectingScript : List Op :=
  [Op.resolved (Value.num 1), Op.rejected (Value.str (js "x")), Op.resolved (Value.num 3),
    Op.all [0, 1, 2]]

/-- The state of the Future `f`, when it exists. -/
def World.stateOf (w : World) (f : FutureId) : Option FutureState :=
  (w.futures[f]?).map Future.state

/-- A script in which the inputs of `all` (Futures `0` and `1`) are pending when `all` is
called (Future `2`), and the second input is rejected before the first. -/
def allLateScript : List Op :=
  [Op.create, Op.create, Op.all [0, 1], Op.reject 1 (Value.str (js "b")),
    Op.reject 0 (Value.str (js "a"))]

/-- The world in which a combinator of the given kind has just been called on three
pending Futures `0`, `1`, `2`; its record is number `0` and its result is Future `3`. -/
def World.awaitingThree (kind : CombinatorKind) : World :=
  (World.init.exec [Op.create, Op.create, Op.create]).combine kind [0, 1, 2]

/-! ## Theorems: `BankAccount` -/

/-- C4. `PasswordValidator.validate`: the `valid` flag is true exactly when the password has
at least 8 code units, contains one in `A`..`Z` (65..90) and contains one in `0`..`9`
(48..57); and `errors` holds exactly the messages of the failed rules, in the fixed order
length, uppercase, number. -/
theorem PasswordValidator.validate_spec (p : JSString) :
    ((PasswordValidator.validate p).valid = true ↔
      (8 ≤ p.length ∧ (∃ c ∈ p, 65 ≤ c.val ∧ c.val ≤ 90) ∧
        (∃ c ∈ p, 48 ≤ c.val ∧ c.val ≤ 57))) ∧
    (PasswordValidator.validate p).errors =
      (if 8 ≤ p.length then [] else [js "Password must be at least 8 characters"]) ++
      (if ∃ c ∈ p, 65 ≤ c.val ∧ c.val ≤ 90 then []
        else [js "Password must contain an uppercase letter"]) ++
      (if ∃ c ∈ p, 48 ≤ c.val ∧ c.val ≤ 57 then []
        else [js "Password must contain a number"]) := by
  have hU : PasswordValidator.hasUppercase p = true ↔
      ∃ c ∈ p, 65 ≤ c.val ∧ c.val ≤ 90 := by
    simp [PasswordValidator.hasUppercase, List.any_eq_true]
  have hN : PasswordValidator.hasNumber p = true ↔
      ∃ c ∈ p, 48 ≤ c.val ∧ c.val ≤ 57 := by
    simp [PasswordValidator.hasNumber, List.any_eq_true]
  have hL : PasswordValidator.hasMinLength p = true ↔ 8 ≤ p.length := by
    simp [PasswordValidator.hasMinLength]
  by_cases h1 : 8 ≤ p.length <;>
  by_cases h2 : (∃ c ∈ p, 65 ≤ c.val ∧ c.val ≤ 90) <;>
  by_cases h3 : (∃ c ∈ p, 48 ≤ c.val ∧ c.val ≤ 57) <;>
  · have e1 := hL
    have e2 := hU
    have e3 := hN
    simp only [h1, h2, h3, iff_true, iff_false, Bool.not_eq_true] at e1 e2 e3
    simp [PasswordValidator.validate, e1, e2, e3, h1, h2, h3]

/-! ## Theorems: `TrafficLight` -/

/-- C5. `TrafficLight`: a new light is in state 'red'; `next()` maps 'red' to 'green',
'green' to 'yellow' and 'yellow' to 'red', the returned light being the updated one;
`canGo()` is true exactly in state 'green' and `shouldPrepareToStop()` exactly in state
'yellow'. -/
theorem TrafficLight.cycle_spec :
    TrafficLight.create.getState = js "red" ∧
    (TrafficLight.mk (js "red")).next = TrafficLight.mk (js "green") ∧
    (TrafficLight.mk (js "green")).next = TrafficLight.mk (js "yellow") ∧
    (TrafficLight.mk (js "yellow")).next = TrafficLight.mk (js "red") ∧
    (∀ l : TrafficLight, l.canGo = true ↔ l.getState = js "green") ∧
    (∀ l : TrafficLight, l.shouldPrepareToStop = true ↔ l.getState = js "yellow") := by
  refine ⟨by decide, by decide, by decide, by decide, ?_, ?_⟩
  · intro l
    simp [TrafficLight.canGo, TrafficLight.getState]
  · intro l
    simp [TrafficLight.shouldPrepareToStop, TrafficLight.getState]

/-! ## Theorems: `Observable` -/

/-- A callback body without unsubscribe calls only appends registrations and keeps the
value. -/
theorem Observable.runActions_keeps {α : Type} (acts : List Action) :
    ∀ self : Observable α, (∀ a ∈ acts, a.isUnsubscribe = false) →
      (∃ ext, (self.runActions acts).observers = self.observers ++ ext) ∧
      (self.runActions acts).value = self.value := by
  induction acts with
  | nil =>
    intro self _
    exact ⟨⟨[], by simp [Observable.runActions]⟩, rfl⟩
  | cons a rest ih =>
    intro self h
    have hrest : ∀ x ∈ rest, x.isUnsubscribe = false :=
      fun x hx => h x (List.mem_cons_of_mem a hx)
    cases a with
    | subscribe cb =>
      obtain ⟨⟨ext, he⟩, hv⟩ := ih (self.subscribe cb) hrest
      refine ⟨⟨cb :: ext, ?_⟩, ?_⟩
      · show ((self.subscribe cb).runActions rest).observers = self.observers ++ cb :: ext
        rw [he]
        simp [Observable.subscribe]
      · show ((self.subscribe cb).runActions rest).value = self.value
        rw [hv]
        rfl
    | unsubscribe cb =>
      have := h (Action.unsubscribe cb) (List.mem_cons_self _ _)
      simp [Action.isUnsubscribe] at this

/-- When no observer of the list `l` read at the start calls an unsubscribe function, the
`forEach` loop calls the observers of `l` from index `k` on, in order, each with the current
value, whatever has been appended to the array meanwhile. -/
theorem Observable.forEachFrom_keeps {α : Type} (body : Callback → α → List Action)
    (l : List Callback) (v : α) (hq : keepsRegistrations body l v) (n : Nat) :
    ∀ (self : Observable α) (trace : List (Callback × α)) (k : Nat),
      (∃ ext, self.observers = l ++ ext) → self.value = v → k + n = l.length →
      (Observable.forEachFrom body self trace k n).2 =
          trace ++ (l.drop k).map (fun cb => (cb, v)) ∧
      (Observable.forEachFrom body self trace k n).1.value = v := by
  induction n with
  | zero =>
    intro self trace k _ hv hk
    have hk0 : l.length ≤ k := by omega
    simp [Observable.forEachFrom, List.drop_eq_nil_of_le hk0, hv]
  | succ n ih =>
    intro self trace k hext hv hk
    obtain ⟨ext, he⟩ := hext
    have hlt : k < l.length := by omega
    have hget : self.observers.get? k = some l[k] := by
      rw [List.get?_eq_getElem?, he, List.getElem?_append_left hlt, List.getElem?_eq_getElem hlt]
    have hbody : ∀ a ∈ body l[k] self.value, a.isUnsubscribe = false := by
      rw [hv]
      exact hq l[k] (List.getElem_mem hlt)
    obtain ⟨⟨ext2, he2⟩, hv2⟩ :=
      Observable.runActions_keeps (body l[k] self.value) self hbody
    have hrec := ih (self.runActions (body l[k] self.value))
      (trace ++ [(l[k], self.value)]) (k + 1)
      ⟨ext ++ ext2, by rw [he2, he, List.append_assoc]⟩ (by rw [hv2, hv]) (by omega)
    simp only [Observable.forEachFrom, hget]
    refine ⟨?_, hrec.2⟩
    rw [hrec.1, hv, List.drop_eq_getElem_cons hlt, List.map_cons, List.append_assoc,
      List.singleton_append]

/-- With observers that call no unsubscribe function when notified, `setValue` stores the
value and calls the observers once each, in order, with the new value. -/
theorem Observable.setValue_keeps {α : Type} (body : Callback → α → List Action)
    (self : Observable α) (v : α) (hq : keepsRegistrations body self.observers v) :
    (Observable.setValue body self v).2 = self.observers.map (fun cb => (cb, v)) ∧
    (Observable.setValue body self v).1.value = v := by
  unfold Observable.setValue
  have h := Observable.forEachFrom_keeps body self.observers v hq self.observers.length
    { self with value := v } [] 0 ⟨[], by simp⟩ rfl (by simp)
  simpa using h

/-- The unsubscribe function removes the earliest registration of its callback. -/
theorem Observable.unsubscribe_observers {α : Type} (self : Observable α) (cb : Callback) :
    (self.unsubscribe cb).observers = self.observers.erase cb := by
  unfold Observable.unsubscribe arrayIndexOf
  by_cases h : cb ∈ self.observers
  · have hpos : ((List.indexOf cb self.observers : Nat) : Int) > -1 := by omega
    simp only [h, if_true, hpos, Int.toNat_ofNat]
    exact List.eraseIdx_indexOf_eq_erase cb self.observers
  · simp [h, List.erase_of_not_mem h]

/-- Erasing one occurrence of `a` does not change the elements different from `a`. -/
theorem filter_ne_erase (a : Callback) (l : List Callback) :
    (l.erase a).filter (fun c => decide (c ≠ a)) = l.filter (fun c => decide (c ≠ a)) := by
  induction l with
  | nil => simp
  | cons x xs ih =>
    by_cases hx : x = a
    · subst hx
      simp
    · rw [List.erase_cons_tail (by simpa using hx), List.filter_cons, List.filter_cons, ih]

/-- C6 as stated fails: with observers `[1, 2]` where callback `1` calls its own unsubscribe
function when notified, `setValue(5)` calls callback `1` only; callback `2` is never
called. -/
theorem Observable.setValue_selfRemoving_skips :
    (Observable.setValue selfRemoving ((Observable.create 0).subscribe 1 |>.subscribe 2) 5).2
      = [(1, 5)] ∧
    (Observable.setValue selfRemoving ((Observable.create 0).subscribe 1 |>.subscribe 2) 5).2
      ≠ ((Observable.create 0).subscribe 1 |>.subscribe 2).observers.map (fun cb => (cb, 5)) := by
  decide

/-- C6, amended. For observers `o1..on` (in subscription order) none of which calls an
unsubscribe function while it is notified, `setValue(v)` makes `getValue()` return `v` and
calls each of `o1..on` exactly once, in subscription order, each with argument `v`. -/
theorem Observable.setValue_spec {α : Type} (body : Callback → α → List Action)
    (o : Observable α) (v : α) (hq : keepsRegistrations body o.observers v) :
    (Observable.setValue body o v).1.getValue = v ∧
    (Observable.setValue body o v).2 = o.observers.map (fun cb => (cb, v)) :=
  ⟨(Observable.setValue_keeps body o v hq).2, (Observable.setValue_keeps body o v hq).1⟩

/-- Two observers, the first of which subscribes a third callback when notified:
`setValue(5)` calls observer 1 then observer 2, each once with 5. -/
theorem Observable.setValue_spec_witness :
    (Observable.setValue addsObserver
      ((Observable.create 0).subscribe 1 |>.subscribe 2) 5).1.getValue = 5 ∧
    (Observable.setValue addsObserver ((Observable.create 0).subscribe 1 |>.subscribe 2) 5).2
      = ((Observable.create 0).subscribe 1 |>.subscribe 2).observers.map (fun cb => (cb, 5)) :=
  Observable.setValue_spec addsObserver ((Observable.create 0).subscribe 1 |>.subscribe 2) 5
    (by decide)

/-- C7 as stated fails twice. When callback `1` has been subscribed twice, calling the
function returned by `subscribe(1)` leaves one registration, and a later `setValue(10)`
still calls callback `1`. And with observers `1, 2, 3`, after callback `3` is unsubscribed, a
`setValue(7)` during which callback `1` calls its own unsubscribe function never calls the
other observer `2`. -/
theorem Observable.unsubscribe_counterexample :
    (Observable.setValue quiet
      (((Observable.create 0).subscribe 1 |>.subscribe 1).unsubscribe 1) 10).2 = [(1, 10)] ∧
    (Observable.setValue selfRemoving
      (((Observable.create 0).subscribe 1 |>.subscribe 2 |>.subscribe 3).unsubscribe 3) 7).2
      = [(1, 7)] := by
  decide

/-- C7, amended. The function returned by `subscribe(cb)` removes the earliest registration
of `cb`. After it is called, with observers that call no unsubscribe function while
notified, a later `setValue(v)` calls every observer other than `cb` with `v` in the
original relative order, and when `cb` was registered once it does not call `cb`: the calls
are then exactly those of the observers other than `cb`. -/
theorem Observable.unsubscribe_spec {α : Type} (body : Callback → α → List Action)
    (o : Observable α) (cb : Callback) (v : α)
    (hq : keepsRegistrations body o.observers v) :
    (o.unsubscribe cb).observers = o.observers.erase cb ∧
    ((Observable.setValue body (o.unsubscribe cb) v).2.filter (fun x => decide (x.1 ≠ cb))
      = (o.observers.filter (fun c => decide (c ≠ cb))).map (fun c => (c, v))) ∧
    (o.observers.count cb = 1 →
      (Observable.setValue body (o.unsubscribe cb) v).2
        = (o.observers.filter (fun c => decide (c ≠ cb))).map (fun c => (c, v))) := by
  have hobs := Observable.unsubscribe_observers o cb
  have hq2 : keepsRegistrations body (o.unsubscribe cb).observers v := by
    intro c hc
    rw [hobs] at hc
    exact hq c (List.mem_of_mem_erase hc)
  have htrace := (Observable.setValue_keeps body (o.unsubscribe cb) v hq2).1
  refine ⟨hobs, ?_, ?_⟩
  · rw [htrace, hobs]
    simp only [List.filter_map]
    rw [← filter_ne_erase cb o.observers]
    rfl
  · intro hc
    rw [htrace, hobs]
    have hnot : cb ∉ o.observers.erase cb := by
      have h0 : (o.observers.erase cb).count cb = 0 := by
        rw [List.count_erase_self, hc]
      exact List.count_eq_zero.mp h0
    rw [← filter_ne_erase cb o.observers]
    congr 1
    symm
    rw [List.filter_eq_self]
    intro c hcmem
    have : c ≠ cb := fun h => hnot (h ▸ hcmem)
    simpa using this

/-- The usage test: observers 1 and 2, `unsubscribe1()`, then `setValue(10)` calls observer 2
only. -/
theorem Observable.unsubscribe_spec_witness :
    (Observable.setValue quiet
      (((Observable.create 0).subscribe 1 |>.subscribe 2).unsubscribe 1) 10).2
      = (((Observable.create 0).subscribe 1 |>.subscribe 2).observers.filter
          (fun c => decide (c ≠ 1))).map (fun c => (c, 10)) :=
  (Observable.unsubscribe_spec quiet ((Observable.create 0).subscribe 1 |>.subscribe 2) 1 10
    (by decide)).2.2 (by decide)

/-! ## Theorems: `calculate` -/

/-- C9. `calculate` returns the string 'Error: Division by zero' exactly when the operation
is 'divide' and `n2` is 0, for every number `n1`; in that case no arithmetic operator, so no
division, is evaluated. -/
theorem calculate_division_by_zero (n1 n2 : ℚ) (operation : JSString) :
    (calculate n1 n2 operation = JSValue.str (js "Error: Division by zero") ↔
      (operation = js "divide" ∧ n2 = 0)) ∧
    (operation = js "divide" ∧ n2 = 0 → (calculateRun n1 n2 operation).2 = []) := by
  have h4 : js "divide" ≠ js "add" := by decide
  have h5 : js "divide" ≠ js "subtract" := by decide
  have h6 : js "divide" ≠ js "multiply" := by decide
  have hm : js "Invalid operation" ≠ js "Error: Division by zero" := by decide
  constructor
  · constructor
    · intro h
      unfold calculate calculateRun at h
      split at h
      · simp at h
      · split at h
        · simp at h
        · split at h
          · simp at h
          · split at h
            · rename_i hd
              split at h
              · rename_i hz
                exact ⟨hd, hz⟩
              · simp at h
            · exact absurd (JSValue.str.inj h) hm
    · rintro ⟨hd, hz⟩
      subst hd hz
      simp [calculate, calculateRun, h4, h5, h6]
  · rintro ⟨hd, hz⟩
    subst hd hz
    simp [calculateRun, h4, h5, h6]

/-- The call `calculate(10, 0, 'divide')`: the message is returned and nothing is divided. -/
theorem calculate_division_by_zero_witness :
    (calculateRun 10 0 (js "divide")).2 = [] :=
  (calculate_division_by_zero 10 0 (js "divide")).2 ⟨rfl, rfl⟩

/-- C10. `calculate` returns the string 'Invalid operation' exactly when the operation is
none of 'add', 'subtract', 'multiply', 'divide', for all numbers `n1` and `n2`; so it does
for the operation 'power'. -/
theorem calculate_invalid_operation (n1 n2 : ℚ) (operation : JSString) :
    (calculate n1 n2 operation = JSValue.str (js "Invalid operation") ↔
      (operation ≠ js "add" ∧ operation ≠ js "subtract" ∧
        operation ≠ js "multiply" ∧ operation ≠ js "divide")) ∧
    calculate n1 n2 (js "power") = JSValue.str (js "Invalid operation") := by
  have hm : js "Error: Division by zero" ≠ js "Invalid operation" := by decide
  have hp1 : js "power" ≠ js "add" := by decide
  have hp2 : js "power" ≠ js "subtract" := by decide
  have hp3 : js "power" ≠ js "multiply" := by decide
  have hp4 : js "power" ≠ js "divide" := by decide
  constructor
  · constructor
    · intro h
      unfold calculate calculateRun at h
      split at h
      · simp at h
      · split at h
        · simp at h
        · split at h
          · simp at h
          · split at h
            · split at h
              · exact absurd (JSValue.str.inj h) hm
              · simp at h
            · rename_i ha hs hmul hd
              exact ⟨ha, hs, hmul, hd⟩
    · rintro ⟨ha, hs, hmul, hd⟩
      simp [calculate, calculateRun, ha, hs, hmul, hd]
  · simp [calculate, calculateRun, hp1, hp2, hp3, hp4]

/-! ## Theorems: `QueryBuilder` -/

/-- The stored `_orderBy` of a chain is the template string of its latest `orderBy` call, and
is empty when the chain has none. -/
theorem QueryBuilder.orderBy_of_calls (calls : List QueryBuilder.Call) :
    ∀ (q : QueryBuilder) (start : Option (JSString × JSString)),
      q._orderBy = (match start with
        | some (field, direction) => field ++ js " " ++ direction
        | none => []) →
      (calls.foldl QueryBuilder.call q)._orderBy =
        (match QueryBuilder.latestOrderBy start calls with
          | some (field, direction) => field ++ js " " ++ direction
          | none => []) := by
  induction calls with
  | nil =>
    intro q start h
    simpa [QueryBuilder.latestOrderBy] using h
  | cons c rest ih =>
    intro q start h
    cases c with
    | select fields =>
      exact ih (q.select fields) start h
    | from_ table =>
      exact ih (q.from_ table) start h
    | where_ condition =>
      exact ih (q.where_ condition) start h
    | orderBy field direction =>
      exact ih (q.orderBy field direction) (some (field, direction)) rfl

/-- The template string of an `orderBy` call is never empty: it holds a space. -/
theorem QueryBuilder.orderBy_template_ne_nil (field direction : JSString) :
    field ++ js " " ++ direction ≠ [] := by
  intro h
  have hlen := congrArg List.length h
  have hs : (js " ").length = 1 := by decide
  simp only [List.length_append, List.length_nil, hs] at hlen
  omega

/-- C11. `QueryBuilder.build`: for the builder reached by any chain of calls, `build()`
returns 'SELECT <select> FROM <from>', followed by ' WHERE <where>' exactly when the stored
where condition is non-empty, followed by ' ORDER BY <field> <direction>' exactly when
`orderBy` was called in the chain (with the arguments of its latest call); and
`select('name, email').from('users').where('age > 18').orderBy('name', 'ASC').build()` is
'SELECT name, email FROM users WHERE age > 18 ORDER BY name ASC'. -/
theorem QueryBuilder.build_spec (calls : List QueryBuilder.Call) :
    (QueryBuilder.chain calls).build =
      js "SELECT " ++ (QueryBuilder.chain calls)._select ++ js " FROM " ++
        (QueryBuilder.chain calls)._from ++
      (if (QueryBuilder.chain calls)._where ≠ [] then
        js " WHERE " ++ (QueryBuilder.chain calls)._where else []) ++
      (match QueryBuilder.latestOrderBy none calls with
        | some (field, direction) => js " ORDER BY " ++ (field ++ js " " ++ direction)
        | none => []) ∧
    (QueryBuilder.chain [QueryBuilder.Call.select (js "name, email"),
        QueryBuilder.Call.from_ (js "users"), QueryBuilder.Call.where_ (js "age > 18"),
        QueryBuilder.Call.orderBy (js "name") (js "ASC")]).build =
      js "SELECT name, email FROM users WHERE age > 18 ORDER BY name ASC" := by
  refine ⟨?_, by decide⟩
  have ho := QueryBuilder.orderBy_of_calls calls QueryBuilder.create none rfl
  change (QueryBuilder.chain calls)._orderBy = _ at ho
  unfold QueryBuilder.build
  cases hl : QueryBuilder.latestOrderBy none calls with
  | none =>
    rw [hl] at ho
    simp only [ho]
    by_cases hw : (QueryBuilder.chain calls)._where = [] <;> simp [hw]
  | some fd =>
    obtain ⟨field, direction⟩ := fd
    rw [hl] at ho
    have ho2 : (QueryBuilder.chain calls)._orderBy = field ++ js " " ++ direction := ho
    have hne := QueryBuilder.orderBy_template_ne_nil field direction
    simp only [ho2, if_pos hne]
    by_cases hw : (QueryBuilder.chain calls)._where = [] <;> simp [hw]

/-! ## Theorems: `StringBuilder` -/

/-- Splitting into code units, reversing and joining reverses the string. -/
theorem StringBuilder.join_reverse_split (s : JSString) :
    StringBuilder.joinEmpty (StringBuilder.splitEmpty s).reverse = s.reverse := by
  unfold StringBuilder.joinEmpty StringBuilder.splitEmpty
  induction s with
  | nil => rfl
  | cons c rest ih =>
    simp only [List.map_cons, List.reverse_cons, List.flatten_append, ih]
    simp

/-- C12. `StringBuilder`: for a builder whose current string is `s` and every string `t`,
`append(t)` makes `toString()` return `s` followed by `t`, `prepend(t)` makes it return `t`
followed by `s`, and `reverse()` makes it return `s` with its code units in reverse order,
each returning the updated builder itself; and
`new StringBuilder().append('abc').reverse().prepend('123').toString()` is '123cba'. -/
theorem StringBuilder.methods_spec (s t : JSString) :
    ((StringBuilder.mk s).append t).toString = s ++ t ∧
    ((StringBuilder.mk s).prepend t).toString = t ++ s ∧
    (StringBuilder.mk s).reverse.toString = s.reverse ∧
    (((StringBuilder.create.append (js "abc")).reverse).prepend (js "123")).toString
      = js "123cba" := by
  refine ⟨rfl, rfl, ?_, by decide⟩
  exact StringBuilder.join_reverse_split s

/-! ## Theorems: the future and scheduler core -/

/-- An index that holds an element lies inside the list. -/
theorem lt_length_of_getElem? {α : Type} (l : List α) (i : Nat) (x : α) (h : l[i]? = some x) :
    i < l.length := by
  rcases Nat.lt_or_ge i l.length with hlt | hge
  · exact hlt
  · rw [List.getElem?_eq_none hge] at h
    exact absurd h (by simp)

/-- A `fulfill` call on a Future that no longer takes settling calls changes nothing. -/
theorem World.fulfill_of_not_accepts (w : World) (f : FutureId) (v : Value)
    (h : ¬ w.accepts f) : w.fulfill f v = w := by
  unfold World.fulfill
  split
  · rename_i reactions heq
    exact absurd ⟨reactions, heq⟩ h
  · rfl

/-- A `reject` call on a Future that no longer takes settling calls changes nothing. -/
theorem World.reject_of_not_accepts (w : World) (f : FutureId) (e : Value)
    (h : ¬ w.accepts f) : w.reject f e = w := by
  unfold World.reject
  split
  · rename_i reactions heq
    exact absurd ⟨reactions, heq⟩ h
  · rfl

/-- Registering a reaction keeps the state of every Future and what it has adopted. -/
theorem World.register_lookup (w : World) (g f : FutureId) (r : Reaction) (st : FutureState)
    (rs : List Reaction) (a : Option FutureId)
    (h : w.futures[f]? = some { state := st, reactions := rs, adopting := a }) :
    ∃ rs2, (w.register g r).futures[f]? =
      some { state := st, reactions := rs2, adopting := a } := by
  unfold World.register
  split
  · exact ⟨rs, h⟩
  · rename_i reactions adopting heq
    by_cases hgf : g = f
    · rw [hgf] at heq ⊢
      rw [heq] at h
      cases h
      exact ⟨rs ++ [r], by simp [lt_length_of_getElem? _ _ _ heq]⟩
    · exact ⟨rs, by simp [List.getElem?_set_ne hgf, h]⟩
  · exact ⟨rs, h⟩

/-- The transition of a Future that takes settling calls leaves it settled. -/
theorem World.settle_lookup (w : World) (f : FutureId) (s : FutureState) (rs : List Reaction)
    (a : Option FutureId)
    (h : w.futures[f]? = some { state := FutureState.pending, reactions := rs, adopting := a }) :
    (w.settle f s).futures[f]? = some { state := s, reactions := [], adopting := a } := by
  have hlt := lt_length_of_getElem? _ _ _ h
  simp [World.settle, h, hlt]

/-- After a `fulfill` call the Future takes no further settling call. -/
theorem World.not_accepts_fulfill (w : World) (f : FutureId) (v : Value) :
    ¬ (w.fulfill f v).accepts f := by
  by_cases hacc : w.accepts f
  · obtain ⟨rs, h⟩ := hacc
    have hlt := lt_length_of_getElem? _ _ _ h
    rintro ⟨rs2, h2⟩
    cases v with
    | future inner =>
      have hw : w.fulfill f (Value.future inner) = World.register
          { w with futures := w.futures.set f ⟨FutureState.pending, rs, some inner⟩ }
          inner (Reaction.adopt f) := by
        simp [World.fulfill, h]
      rw [hw] at h2
      obtain ⟨rs3, h3⟩ := World.register_lookup
        { w with futures := w.futures.set f ⟨FutureState.pending, rs, some inner⟩ }
        inner f (Reaction.adopt f) FutureState.pending rs (some inner) (by simp [hlt])
      rw [h3] at h2
      simp at h2
    | _ =>
      simp only [World.fulfill, h] at h2
      rw [World.settle_lookup w f _ rs none h] at h2
      simp at h2
  · rw [World.fulfill_of_not_accepts w f v hacc]
    exact hacc

/-- After a `reject` call the Future takes no further settling call. -/
theorem World.not_accepts_reject (w : World) (f : FutureId) (e : Value) :
    ¬ (w.reject f e).accepts f := by
  by_cases hacc : w.accepts f
  · obtain ⟨rs, h⟩ := hacc
    rintro ⟨rs2, h2⟩
    have hw : w.reject f e = w.settle f (FutureState.rejected e) := by
      simp only [World.reject, h]
    rw [hw, World.settle_lookup w f _ rs none h] at h2
    simp at h2
  · rw [World.reject_of_not_accepts w f e hacc]
    exact hacc

/-- After one settling call on a Future, a further settling call on it changes nothing. -/
theorem World.settleCall_settleCall (w : World) (f : FutureId) (c c2 : SettleCall) :
    (w.settleCall f c).settleCall f c2 = w.settleCall f c := by
  have hclosed : ¬ (w.settleCall f c).accepts f := by
    cases c with
    | fulfill v => exact World.not_accepts_fulfill w f v
    | reject e => exact World.not_accepts_reject w f e
  cases c2 with
  | fulfill v => exact World.fulfill_of_not_accepts _ f v hclosed
  | reject e => exact World.reject_of_not_accepts _ f e hclosed

/-- C13. First settlement wins: for every sequence of fulfill and reject calls on one
Future, only the first call has any effect, so the world after the whole sequence is the
world after its first call; and `resolve('first'); resolve('second'); reject('error')`
leaves the promise fulfilled with 'first'. -/
theorem World.first_settlement_wins (w : World) (f : FutureId) (first : SettleCall)
    (later : List SettleCall) :
    w.settleCalls f (first :: later) = w.settleCall f first ∧
    ((World.exec World.init stateTest).futures[0]?).map Future.state
      = some (FutureState.fulfilled (Value.str (js "first"))) := by
  refine ⟨?_, by decide⟩
  induction later using List.reverseRecOn with
  | nil => rfl
  | append_singleton rest last ih =>
    have happ : first :: (rest ++ [last]) = (first :: rest) ++ [last] := rfl
    rw [happ]
    unfold World.settleCalls at ih ⊢
    rw [List.foldl_append, ih]
    exact World.settleCall_settleCall w f first last

/-- Draining an empty microtask queue returns at once, whatever the fuel. -/
theorem World.drainMicrotasks_nil (program : Program) (fuel : Nat) (w : World)
    (h : w.microtaskQueue = []) : World.drainMicrotasks program fuel w = some w := by
  cases fuel <;> simp [World.drainMicrotasks, h]

/-- C14. Microtasks run before macrotasks: after `scheduleMicrotask(a);
scheduleMacrotask(b, 0); scheduleMicrotask(c)`, with tasks that make no call on the core,
the tasks are called in the order `a, c, b`; and the lesson script that logs 'start',
schedules a 0 ms timeout, chains two `then` callbacks on a resolved promise and logs 'end'
outputs start, end, promise 1, promise 2, timeout. -/
theorem World.microtasks_before_macrotasks (program : Program) (a b c : Callable)
    (ha : (program a Value.undefined).ops = []) (hb : (program b Value.undefined).ops = [])
    (hc : (program c Value.undefined).ops = []) :
    (∀ fuel : Nat,
      (World.runScript program
        [Op.scheduleMicrotask a, Op.scheduleMacrotask b 0, Op.scheduleMicrotask c]
        (fuel + 2)).map World.calls
        = some [(a, Value.undefined), (c, Value.undefined), (b, Value.undefined)]) ∧
    (World.runScript orderingProgram orderingScript 3).map World.output
      = some [Value.str (js "start"), Value.str (js "end"), Value.str (js "promise 1"),
          Value.str (js "promise 2"), Value.str (js "timeout")] := by
  refine ⟨?_, by decide⟩
  intro fuel
  cases hra : (program a Value.undefined).result <;>
  cases hrb : (program b Value.undefined).result <;>
  cases hrc : (program c Value.undefined).result <;>
  simp [World.runScript, World.exec, World.execOp, World.init, World.scheduleMicrotask,
    World.scheduleMacrotask, World.insertByDue, World.drainAll, World.drainMicrotasks,
    World.runOneMacrotask, World.runJob, World.calls, World.drainMicrotasks_nil,
    ha, hb, hc, hra, hrb, hrc]

/-- Three tasks that make no call on the core are called in the order microtask,
microtask, macrotask. -/
theorem World.microtasks_before_macrotasks_witness :
    (World.runScript idleProgram
      [Op.scheduleMicrotask 1, Op.scheduleMacrotask 2 0, Op.scheduleMicrotask 3]
      (0 + 2)).map World.calls
      = some [(1, Value.undefined), (3, Value.undefined), (2, Value.undefined)] :=
  (World.microtasks_before_macrotasks idleProgram 1 2 3 rfl rfl rfl).1 0

/-- Every world continues itself. -/
theorem World.Continues.refl (w : World) : w.Continues w :=
  ⟨[], by simp⟩

/-- Continuation is transitive. -/
theorem World.Continues.trans {w1 w2 w3 : World} (h12 : w1.Continues w2)
    (h23 : w2.Continues w3) : w1.Continues w3 := by
  obtain ⟨e1, h1⟩ := h12
  obtain ⟨e2, h2⟩ := h23
  exact ⟨e1 ++ e2, by rw [h2, h1, List.append_assoc]⟩

/-- A world with the same trace continues the first. -/
theorem World.Continues.of_trace_eq {w1 w2 : World} (h : w2.trace = w1.trace) :
    w1.Continues w2 :=
  ⟨[], by simp [h]⟩

/-- Settling a Future runs nothing. -/
theorem World.settle_trace (w : World) (f : FutureId) (s : FutureState) :
    (w.settle f s).trace = w.trace := by
  unfold World.settle
  split <;> rfl

/-- Registering a reaction runs nothing. -/
theorem World.register_trace (w : World) (f : FutureId) (r : Reaction) :
    (w.register f r).trace = w.trace := by
  unfold World.register
  split <;> rfl

/-- A `fulfill` call runs nothing. -/
theorem World.fulfill_trace (w : World) (f : FutureId) (v : Value) :
    (w.fulfill f v).trace = w.trace := by
  unfold World.fulfill
  split
  · split
    · rw [World.register_trace]
    · rw [World.settle_trace]
  · rfl

/-- A `reject` call runs nothing. -/
theorem World.reject_trace (w : World) (f : FutureId) (e : Value) :
    (w.reject f e).trace = w.trace := by
  unfold World.reject
  split
  · rw [World.settle_trace]
  · rfl

/-- Registering the reactions of a combinator runs nothing. -/
theorem World.registerAll_trace (combinator : Nat) (inputs : List FutureId) :
    ∀ (w : World) (index : Nat),
      (w.registerAll combinator inputs index).trace = w.trace := by
  induction inputs with
  | nil => intro w index; rfl
  | cons f fs ih =>
    intro w index
    unfold World.registerAll
    rw [ih, World.register_trace]

/-- Calling a combinator runs nothing. -/
theorem World.combine_trace (w : World) (kind : CombinatorKind) (inputs : List FutureId) :
    (w.combine kind inputs).trace = w.trace := by
  unfold World.combine
  simp only []
  rw [World.registerAll_trace]
  split
  · rw [World.settle_trace]
    rfl
  · rfl

/-- A `then` call runs nothing. -/
theorem World.then_trace (w : World) (f : FutureId) (onFulfilled onRejected : Option Callable) :
    (w.then_ f onFulfilled onRejected).trace = w.trace := by
  unfold World.then_
  rw [World.register_trace]
  rfl

/-- One call on the core adds at most a logged value to the trace. -/
theorem World.execOp_trace (w : World) (op : Op) :
    (w.execOp op).trace = w.trace ∨ ∃ v, (w.execOp op).trace = w.trace ++ [Event.log v] := by
  cases op with
  | log v => exact Or.inr ⟨v, rfl⟩
  | scheduleMicrotask work => exact Or.inl rfl
  | scheduleMacrotask work delay => exact Or.inl rfl
  | cancel token => exact Or.inl rfl
  | create => exact Or.inl rfl
  | resolved v => exact Or.inl (World.fulfill_trace _ _ _)
  | rejected e => exact Or.inl (World.reject_trace _ _ _)
  | fulfill f v => exact Or.inl (World.fulfill_trace _ _ _)
  | reject f e => exact Or.inl (World.reject_trace _ _ _)
  | then_ f onFulfilled onRejected => exact Or.inl (World.then_trace _ _ _ _)
  | catchError f onRejected => exact Or.inl (World.then_trace _ _ _ _)
  | all inputs => exact Or.inl (World.combine_trace _ _ _)
  | any inputs => exact Or.inl (World.combine_trace _ _ _)

/-- One call on the core calls no callable. -/
theorem World.execOp_calls (w : World) (op : Op) : (w.execOp op).calls = w.calls := by
  rcases World.execOp_trace w op with h | ⟨v, h⟩
  · simp [World.calls, h]
  · simp [World.calls, h]

/-- Synchronous application code calls no callable. -/
theorem World.exec_calls (script : List Op) : ∀ w : World, (w.exec script).calls = w.calls := by
  induction script with
  | nil => intro w; rfl
  | cons op rest ih =>
    intro w
    show ((w.execOp op).exec rest).calls = w.calls
    rw [ih, World.execOp_calls]

/-- Synchronous application code only adds to the trace. -/
theorem World.exec_continues (script : List Op) : ∀ w : World, w.Continues (w.exec script) := by
  induction script with
  | nil => intro w; exact World.Continues.refl w
  | cons op rest ih =>
    intro w
    have hstep : w.Continues (w.execOp op) := by
      rcases World.execOp_trace w op with h | ⟨v, h⟩
      · exact World.Continues.of_trace_eq h
      · exact ⟨[Event.log v], h⟩
    exact World.Continues.trans hstep (ih (w.execOp op))

/-- Calling a handler only adds to the trace. -/
theorem World.invoke_continues (program : Program) (w : World) (handler : Callable)
    (arg : Value) (downstream : FutureId) :
    w.Continues (World.invoke program w handler arg downstream) := by
  unfold World.invoke
  have h1 : w.Continues { w with trace := w.trace ++ [Event.call handler arg] } :=
    ⟨[Event.call handler arg], rfl⟩
  have h2 := World.exec_continues (program handler arg).ops
    { w with trace := w.trace ++ [Event.call handler arg] }
  have h12 := World.Continues.trans h1 h2
  simp only []
  split
  · exact World.Continues.trans h12 (World.Continues.of_trace_eq (World.fulfill_trace _ _ _))
  · exact World.Continues.trans h12 (World.Continues.of_trace_eq (World.reject_trace _ _ _))

/-- Dispatching a reaction only adds to the trace. -/
theorem World.dispatch_continues (program : Program) (w : World) (r : Reaction)
    (upstream : FutureState) : w.Continues (World.dispatch program w r upstream) := by
  cases r with
  | handlers onFulfilled onRejected downstream =>
    cases upstream with
    | pending => exact World.Continues.refl w
    | fulfilled v =>
      cases onFulfilled with
      | none => exact World.Continues.of_trace_eq (World.settle_trace _ _ _)
      | some handler => exact World.invoke_continues program w handler v downstream
    | rejected e =>
      cases onRejected with
      | none => exact World.Continues.of_trace_eq (World.settle_trace _ _ _)
      | some handler => exact World.invoke_continues program w handler e downstream
  | adopt outer =>
    cases upstream with
    | pending => exact World.Continues.refl w
    | fulfilled v => exact World.Continues.of_trace_eq (World.settle_trace _ _ _)
    | rejected e => exact World.Continues.of_trace_eq (World.settle_trace _ _ _)
  | element combinator index =>
    unfold World.dispatch
    simp only []
    split
    · exact World.Continues.refl w
    · split
      · exact World.Continues.of_trace_eq rfl
      · exact World.Continues.of_trace_eq (World.settle_trace _ _ _)

/-- Running one dequeued item only adds to the trace. -/
theorem World.runJob_continues (program : Program) (w : World) (job : Job) :
    w.Continues (World.runJob program w job) := by
  cases job with
  | task work =>
    unfold World.runJob
    have h1 : w.Continues { w with trace := w.trace ++ [Event.call work Value.undefined] } :=
      ⟨[Event.call work Value.undefined], rfl⟩
    have h2 := World.exec_continues (program work Value.undefined).ops
      { w with trace := w.trace ++ [Event.call work Value.undefined] }
    have h12 := World.Continues.trans h1 h2
    simp only []
    split
    · exact h12
    · exact World.Continues.trans h12 (World.Continues.of_trace_eq rfl)
  | reaction r upstream => exact World.dispatch_continues program w r upstream

/-- Draining the microtask queue only adds to the trace. -/
theorem World.drainMicrotasks_continues (program : Program) (fuel : Nat) :
    ∀ w later : World, World.drainMicrotasks program fuel w = some later →
      w.Continues later := by
  induction fuel with
  | zero =>
    intro w later h
    unfold World.drainMicrotasks at h
    split at h
    · cases h
      exact World.Continues.refl w
    · cases h
  | succ fuel ih =>
    intro w later h
    unfold World.drainMicrotasks at h
    split at h
    · cases h
      exact World.Continues.refl w
    · rename_i job rest _
      have h1 : w.Continues { w with microtaskQueue := rest } :=
        World.Continues.of_trace_eq rfl
      have h2 := World.runJob_continues program { w with microtaskQueue := rest } job
      exact World.Continues.trans (World.Continues.trans h1 h2) (ih _ _ h)

/-- A call of `runOneMacrotask` only adds to the trace. -/
theorem World.runOneMacrotask_continues (program : Program) (fuel : Nat) (w later : World)
    (ran : Bool) (h : World.runOneMacrotask program fuel w = some (ran, later)) :
    w.Continues later := by
  unfold World.runOneMacrotask at h
  split at h
  · cases h
  · rename_i w1 hd
    have h1 := World.drainMicrotasks_continues program fuel w w1 hd
    split at h
    · cases h
      exact h1
    · rename_i item rest _
      split at h
      · split at h
        · cases h
        · rename_i w2 hd2
          cases h
          have h2 : w1.Continues { w1 with macrotaskQueue := rest } :=
            World.Continues.of_trace_eq rfl
          have h3 := World.runJob_continues program { w1 with macrotaskQueue := rest }
            (Job.task item.work)
          have h4 := World.drainMicrotasks_continues program fuel _ _ hd2
          exact World.Continues.trans h1 (World.Continues.trans h2 (World.Continues.trans h3 h4))
      · cases h
        exact h1

/-- A call of `drainAll` only adds to the trace. -/
theorem World.drainAll_continues (program : Program) (fuel : Nat) :
    ∀ w later : World, World.drainAll program fuel w = some later → w.Continues later := by
  induction fuel with
  | zero =>
    intro w later h
    simp [World.drainAll] at h
  | succ fuel ih =>
    intro w later h
    unfold World.drainAll at h
    split at h
    · cases h
    · rename_i w1 hd
      have h1 := World.drainMicrotasks_continues program (fuel + 1) w w1 hd
      split at h
      · cases h
        exact h1
      · rename_i item rest _
        split at h
        · cases h
        · rename_i ran w2 hr
          have h2 : w1.Continues { w1 with now := max w1.now item.due } :=
            World.Continues.of_trace_eq rfl
          have h3 := World.runOneMacrotask_continues program (fuel + 1) _ w2 ran hr
          exact World.Continues.trans h1
            (World.Continues.trans h2 (World.Continues.trans h3 (ih _ _ h)))

/-- C15. `then` callbacks are never run synchronously: a `then` call, a `fulfill` call, a
`reject` call and any synchronous script call no callable, so a callback does not run
within the call that registers it nor within the call that settles the Future; on an
already settled Future `then` schedules the reaction as a microtask; in a whole run every
callback comes after everything the synchronous script did; and the script that logs 'A',
calls `then` on a resolved promise and logs 'B' outputs A, B and then the callback's C. -/
theorem World.then_callbacks_asynchronous (program : Program) :
    (∀ (w : World) (f : FutureId) (onFulfilled onRejected : Option Callable),
      (w.then_ f onFulfilled onRejected).calls = w.calls) ∧
    (∀ (w : World) (f : FutureId) (v : Value), (w.fulfill f v).calls = w.calls) ∧
    (∀ (w : World) (f : FutureId) (e : Value), (w.reject f e).calls = w.calls) ∧
    (∀ (w : World) (script : List Op), (w.exec script).calls = w.calls) ∧
    (∀ (w : World) (f : FutureId) (s : FutureState) (reactions : List Reaction)
      (adopting : Option FutureId) (onFulfilled onRejected : Option Callable),
      w.futures[f]? = some { state := s, reactions := reactions, adopting := adopting } →
      s ≠ FutureState.pending →
      (w.then_ f onFulfilled onRejected).microtaskQueue = w.microtaskQueue ++
        [Job.reaction (Reaction.handlers onFulfilled onRejected w.futures.length) s]) ∧
    (∀ (script : List Op) (fuel : Nat) (final : World),
      World.runScript program script fuel = some final →
      (World.init.exec script).calls = [] ∧
      ∃ events, final.trace = (World.init.exec script).trace ++ events) ∧
    (World.runScript alreadyResolvedProgram alreadyResolvedScript 2).map World.output
      = some [Value.str (js "A - Before .then()"), Value.str (js "B - After .then()"),
          Value.str (js "C - Inside .then()")] := by
  refine ⟨?_, ?_, ?_, ?_, ?_, ?_, by decide⟩
  · intro w f onFulfilled onRejected
    simp [World.calls, World.then_trace]
  · intro w f v
    simp [World.calls, World.fulfill_trace]
  · intro w f e
    simp [World.calls, World.reject_trace]
  · intro w script
    exact World.exec_calls script w
  · intro w f s reactions adopting onFulfilled onRejected hf hs
    have hlt : f < w.futures.length := lt_length_of_getElem? _ _ _ hf
    have hget : w.create.futures[f]? =
        some { state := s, reactions := reactions, adopting := adopting } := by
      show (w.futures ++ [_])[f]? = _
      rw [List.getElem?_append_left hlt, hf]
    unfold World.then_ World.register
    rw [hget]
    cases s with
    | pending => exact absurd rfl hs
    | fulfilled v => rfl
    | rejected e => rfl
  · intro script fuel final h
    refine ⟨?_, ?_⟩
    · rw [World.exec_calls]
      rfl
    · exact World.drainAll_continues program fuel _ _ h

/-- On the world left by `Promise.resolve('instant')`, a `then` call enqueues its reaction
with the fulfilled state of the promise. -/
theorem World.then_callbacks_asynchronous_witness :
    ((World.init.exec [Op.resolved (Value.str (js "instant"))]).then_ 0 (some 0)
        none).microtaskQueue
      = (World.init.exec [Op.resolved (Value.str (js "instant"))]).microtaskQueue ++
        [Job.reaction (Reaction.handlers (some 0) none
          (World.init.exec [Op.resolved (Value.str (js "instant"))]).futures.length)
          (FutureState.fulfilled (Value.str (js "instant")))] :=
  (World.then_callbacks_asynchronous idleProgram).2.2.2.2.1
    (World.init.exec [Op.resolved (Value.str (js "instant"))]) 0
    (FutureState.fulfilled (Value.str (js "instant"))) [] none (some 0) none (by decide)
    (by simp)

/-- Observing never changes the result Future of a combinator record, nor its kind. -/
theorem Combinator.observe_result (c : Combinator) (index : Nat) (upstream : FutureState) :
    (c.observe index upstream).1.result = c.result ∧
    (c.observe index upstream).1.kind = c.kind := by
  unfold Combinator.observe
  split <;> simp [Combinator.collect]

/-- A combinator collects the terminal state of its kind. -/
theorem Combinator.observe_collected (c : Combinator) (index : Nat) (x : Value) :
    c.observe index (c.kind.collected x) = c.collect index x := by
  unfold Combinator.observe CombinatorKind.collected
  cases h : c.kind <;> simp

/-- A deciding terminal state makes the combinator ask for it, and leaves the record. -/
theorem Combinator.observe_decisive (c : Combinator) (index : Nat) (x : Value) :
    c.observe index (c.kind.decisive x) = (c, some (c.kind.decisive x)) := by
  unfold Combinator.observe CombinatorKind.decisive
  cases h : c.kind <;> simp

/-- Once the result is settled, further observations leave it as it is. -/
theorem Combinator.observeAll_settled (observations : List (Nat × FutureState)) :
    ∀ (c : Combinator) (result : FutureState), result ≠ FutureState.pending →
      (c.observeAll result observations).2 = result := by
  induction observations with
  | nil => intro c result _; rfl
  | cons o rest ih =>
    intro c result h
    have hk : result.keepFirst (c.observe o.1 o.2).2 = result := by
      cases result with
      | pending => exact absurd rfl h
      | fulfilled v => rfl
      | rejected e => rfl
    unfold Combinator.observeAll
    rw [hk]
    exact ih _ result h

/-- While fewer inputs have been collected than the combinator awaits, it asks for nothing:
the result stays as it was, the collected values are stored by position and the number
awaited goes down by one each time. -/
theorem Combinator.observeAll_collecting (collected : List (Nat × Value)) :
    ∀ (c : Combinator) (result : FutureState), collected.length < c.remaining →
      c.observeAll result (collected.map (fun p => (p.1, c.kind.collected p.2))) =
        ({ c with
            slots := collected.foldl (fun slots p => slots.set p.1 (some p.2)) c.slots
            remaining := c.remaining - collected.length }, result) := by
  induction collected with
  | nil => intro c result _; rfl
  | cons p rest ih =>
    intro c result h
    simp only [List.length_cons] at h
    simp only [List.map_cons, Combinator.observeAll]
    rw [Combinator.observe_collected]
    have hne : c.remaining - 1 ≠ 0 := by omega
    have hstep : c.collect p.1 p.2 =
        ({ c with slots := c.slots.set p.1 (some p.2), remaining := c.remaining - 1 }, none) := by
      simp [Combinator.collect, hne]
    rw [hstep]
    have hk : result.keepFirst none = result := by cases result <;> rfl
    rw [hk]
    have hrec := ih { c with slots := c.slots.set p.1 (some p.2), remaining := c.remaining - 1 }
      result (by simp only []; omega)
    simp only [] at hrec
    rw [hrec]
    simp only [List.foldl_cons, List.length_cons]
    congr 2
    omega

/-- Observing a sequence in two parts is observing the first part, then the second. -/
theorem Combinator.observeAll_append (first second : List (Nat × FutureState)) :
    ∀ (c : Combinator) (result : FutureState),
      c.observeAll result (first ++ second) =
        (c.observeAll result first).1.observeAll (c.observeAll result first).2 second := by
  induction first with
  | nil => intro c result; rfl
  | cons o rest ih =>
    intro c result
    simp only [List.cons_append, Combinator.observeAll]
    exact ih _ _

/-- Storing the value of every position of `order` leaves, at each position, the value of
that position when it occurs in `order`, and what was there otherwise. -/
theorem slots_after_collecting (value : Nat → Value) (order : List Nat) :
    ∀ (slots : List (Option Value)) (j : Nat),
      (order.foldl (fun slots i => slots.set i (some (value i))) slots)[j]? =
        if j ∈ order ∧ j < slots.length then some (some (value j)) else slots[j]? := by
  induction order with
  | nil => intro slots j; simp
  | cons i rest ih =>
    intro slots j
    simp only [List.foldl_cons]
    rw [ih]
    simp only [List.length_set, List.mem_cons]
    by_cases hj : j < slots.length
    · by_cases hrest : j ∈ rest
      · simp [hrest, hj]
      · by_cases hij : j = i
        · subst hij
          simp [hrest, hj]
        · have hij2 : i ≠ j := fun h => hij h.symm
          simp [hrest, hij, List.getElem?_set_ne hij2]
    · have hnone : slots[j]? = none := List.getElem?_eq_none (Nat.le_of_not_lt hj)
      have hnone2 : (slots.set i (some (value i)))[j]? = none :=
        List.getElem?_eq_none (by simpa using Nat.le_of_not_lt hj)
      simp [hj, hnone, hnone2]

/-- When every position has been stored, the slots hold the values in input order. -/
theorem slots_complete (xs : List Value) (order : List Nat)
    (hall : ∀ j, j < xs.length → j ∈ order) :
    (order.foldl (fun slots i => slots.set i (some (xs.getD i Value.undefined)))
      (List.replicate xs.length none)).filterMap id = xs := by
  have hslots : order.foldl (fun slots i => slots.set i (some (xs.getD i Value.undefined)))
      (List.replicate xs.length none) = xs.map some := by
    apply List.ext_getElem?
    intro j
    rw [slots_after_collecting (fun i => xs.getD i Value.undefined) order]
    by_cases hj : j < xs.length
    · simp [hall j hj, hj, List.getD_eq_getElem?_getD, List.getElem?_eq_getElem hj]
    · have h1 : (List.replicate xs.length (none : Option Value))[j]? = none :=
        List.getElem?_eq_none (by simpa using Nat.le_of_not_lt hj)
      have h2 : (xs.map some)[j]? = none :=
        List.getElem?_eq_none (by simpa using Nat.le_of_not_lt hj)
      simp [hj, h1, h2]
  rw [hslots]
  simp [List.filterMap_map]

/-- A fresh combinator that observes the collected terminal state of every one of its
inputs, in any order, asks at the last one for its completion with the values in input
order. -/
theorem Combinator.observeAll_complete (kind : CombinatorKind) (result : FutureId)
    (xs : List Value) (order : List Nat) (hne : xs ≠ [])
    (hperm : order.Perm (List.range xs.length)) :
    ((Combinator.fresh kind xs.length result).observeAll FutureState.pending
      (order.map (fun i => (i, kind.collected (xs.getD i Value.undefined))))).2
      = World.completion kind xs := by
  have hlen : order.length = xs.length := by
    rw [hperm.length_eq, List.length_range]
  have hpos : 0 < xs.length := List.length_pos.mpr hne
  have hall : ∀ j, j < xs.length → j ∈ order := by
    intro j hj
    exact hperm.symm.subset (List.mem_range.mpr hj)
  rcases List.eq_nil_or_concat order with hnil | ⟨front, last, hconcat⟩
  · rw [hnil] at hlen
    simp at hlen
    omega
  · rw [List.concat_eq_append] at hconcat
    have hfront : front.length + 1 = xs.length := by
      rw [← hlen, hconcat]
      simp
    have hslots := slots_complete xs order hall
    rw [hconcat, List.foldl_append] at hslots
    simp only [List.foldl_cons, List.foldl_nil] at hslots
    have hcollect := Combinator.observeAll_collecting
      (front.map (fun i => (i, xs.getD i Value.undefined)))
      (Combinator.fresh kind xs.length result) FutureState.pending
      (by simp [Combinator.fresh]; omega)
    have hc1 : (Combinator.fresh kind xs.length result).observeAll FutureState.pending
        (front.map (fun i => (i, kind.collected (xs.getD i Value.undefined))))
        = ({ kind := kind
             slots := front.foldl (fun slots i => slots.set i (some (xs.getD i Value.undefined)))
               (List.replicate xs.length none)
             remaining := xs.length - front.length
             result := result }, FutureState.pending) := by
      simpa [Combinator.fresh, List.foldl_map] using hcollect
    rw [hconcat, List.map_append, Combinator.observeAll_append, hc1]
    simp only [List.map_cons, List.map_nil, Combinator.observeAll]
    have hobs := Combinator.observe_collected
      { kind := kind
        slots := front.foldl (fun slots i => slots.set i (some (xs.getD i Value.undefined)))
          (List.replicate xs.length none)
        remaining := xs.length - front.length
        result := result } last (xs.getD last Value.undefined)
    simp only [] at hobs
    rw [hobs]
    have hrem : xs.length - front.length - 1 = 0 := by omega
    simp only [Combinator.collect, hrem, if_true, FutureState.keepFirst]
    rw [hslots]

/-- A fresh combinator that has collected fewer inputs than it awaits and then observes a
deciding terminal state settles with it, whatever it observes afterwards. -/
theorem Combinator.observeAll_decisive (kind : CombinatorKind) (result : FutureId) (inputs : Nat)
    (collected : List (Nat × Value)) (index : Nat) (x : Value)
    (later : List (Nat × FutureState)) (hfew : collected.length < inputs) :
    ((Combinator.fresh kind inputs result).observeAll FutureState.pending
      (collected.map (fun p => (p.1, kind.collected p.2)) ++
        (index, kind.decisive x) :: later)).2 = kind.decisive x := by
  have hcollect := Combinator.observeAll_collecting collected
    (Combinator.fresh kind inputs result) FutureState.pending
    (by simpa [Combinator.fresh] using hfew)
  have hc1 : (Combinator.fresh kind inputs result).observeAll FutureState.pending
      (collected.map (fun p => (p.1, kind.collected p.2)))
      = ({ kind := kind
           slots := collected.foldl (fun slots p => slots.set p.1 (some p.2))
             (List.replicate inputs none)
           remaining := inputs - collected.length
           result := result }, FutureState.pending) := hcollect
  rw [Combinator.observeAll_append, hc1]
  simp only [Combinator.observeAll]
  have hobs := Combinator.observe_decisive
    { kind := kind
      slots := collected.foldl (fun slots p => slots.set p.1 (some p.2))
        (List.replicate inputs none)
      remaining := inputs - collected.length
      result := result } index x
  simp only [] at hobs
  rw [hobs]
  apply Combinator.observeAll_settled
  cases kind <;> simp [FutureState.keepFirst, CombinatorKind.decisive]

/-- A fresh combinator that has only collected, and fewer inputs than it awaits, has not
settled. -/
theorem Combinator.observeAll_incomplete (kind : CombinatorKind) (result : FutureId)
    (inputs : Nat) (collected : List (Nat × Value)) (hfew : collected.length < inputs) :
    ((Combinator.fresh kind inputs result).observeAll FutureState.pending
      (collected.map (fun p => (p.1, kind.collected p.2)))).2 = FutureState.pending := by
  have hcollect := Combinator.observeAll_collecting collected
    (Combinator.fresh kind inputs result) FutureState.pending
    (by simpa [Combinator.fresh] using hfew)
  have hmap : collected.map
      (fun p => (p.1, (Combinator.fresh kind inputs result).kind.collected p.2))
      = collected.map (fun p => (p.1, kind.collected p.2)) := rfl
  rw [hmap] at hcollect
  rw [hcollect]

/-- Dispatching a bookkeeping reaction updates the record as `observe` says, and the result
Future keeps the first settlement asked for. -/
theorem World.dispatch_element (program : Program) (w : World) (combinator index : Nat)
    (upstream : FutureState) (c : Combinator) (st : FutureState) (rs : List Reaction)
    (a : Option FutureId) (hc : w.combinators[combinator]? = some c)
    (hf : w.futures[c.result]? = some { state := st, reactions := rs, adopting := a }) :
    (World.dispatch program w
      (Reaction.element combinator index) upstream).combinators[combinator]?
      = some (c.observe index upstream).1 ∧
    ∃ rs2, (World.dispatch program w
      (Reaction.element combinator index) upstream).futures[c.result]?
      = some ⟨st.keepFirst (c.observe index upstream).2, rs2, a⟩ := by
  have hclt : combinator < w.combinators.length := by
    rcases Nat.lt_or_ge combinator w.combinators.length with hlt | hge
    · exact hlt
    · rw [List.getElem?_eq_none hge] at hc
      exact absurd hc (by simp)
  have hflt : c.result < w.futures.length := by
    rcases Nat.lt_or_ge c.result w.futures.length with hlt | hge
    · exact hlt
    · rw [List.getElem?_eq_none hge] at hf
      exact absurd hf (by simp)
  unfold World.dispatch
  simp only [hc]
  cases hreq : (c.observe index upstream).2 with
  | none =>
    refine ⟨by simp [hclt], rs, ?_⟩
    simp only [hf]
    cases st <;> rfl
  | some s =>
    simp only [World.settle, hf]
    cases st with
    | pending =>
      refine ⟨by simp [hclt], [], ?_⟩
      simp [hflt, FutureState.keepFirst]
    | fulfilled v =>
      refine ⟨by simp [hclt], rs, ?_⟩
      simp [hf, FutureState.keepFirst]
    | rejected e =>
      refine ⟨by simp [hclt], rs, ?_⟩
      simp [hf, FutureState.keepFirst]

/-- Dispatching the bookkeeping reactions of a combinator, in any order, leaves its result
Future in the state that `observeAll` computes. -/
theorem World.dispatchAll_stateOf (program : Program) (combinator : Nat)
    (observations : List (Nat × FutureState)) :
    ∀ (w : World) (c : Combinator) (st : FutureState) (rs : List Reaction)
      (a : Option FutureId), w.combinators[combinator]? = some c →
      w.futures[c.result]? = some { state := st, reactions := rs, adopting := a } →
      (w.dispatchAll program combinator observations).stateOf c.result
        = some (c.observeAll st observations).2 := by
  induction observations with
  | nil =>
    intro w c st rs a _ hf
    simp [World.dispatchAll, World.stateOf, Combinator.observeAll, hf]
  | cons o rest ih =>
    intro w c st rs a hc hf
    obtain ⟨hc2, rs2, hf2⟩ :=
      World.dispatch_element program w combinator o.1 o.2 c st rs a hc hf
    have hres := (Combinator.observe_result c o.1 o.2).1
    rw [← hres] at hf2
    have hrec := ih _ _ _ rs2 a hc2 hf2
    rw [hres] at hrec
    exact hrec

/-- C17. The `all` combinator fulfills with the ordered sequence of values only when every
input fulfills, and rejects with the first rejection observed. For a combinator record
awaiting `n` inputs whose result is Pending: when the fulfilments of all inputs are
observed, in any order, the result is fulfilled with the values in input order; when a
rejection is observed after fewer than `n` fulfilments, the result is rejected with it,
whatever is observed later; and after fewer than `n` fulfilments alone the result is still
Pending. `all` of [resolved 1, resolved 2, resolved 3] fulfills with [1, 2, 3], `all` of
[resolved 1, rejected 'x', resolved 3] rejects with 'x', and of two pending inputs rejected
later the one rejected first decides. -/
theorem World.all_combinator (program : Program) (w : World) (combinator : Nat)
    (result : FutureId) (n : Nat) (rs : List Reaction) (a : Option FutureId)
    (hc : w.combinators[combinator]? = some (Combinator.fresh CombinatorKind.all n result))
    (hf : w.futures[result]? =
      some { state := FutureState.pending, reactions := rs, adopting := a }) :
    (∀ (xs : List Value) (order : List Nat), xs.length = n → xs ≠ [] →
      order.Perm (List.range n) →
      (w.dispatchAll program combinator
        (order.map (fun i => (i, FutureState.fulfilled (xs.getD i Value.undefined))))).stateOf
          result = some (FutureState.fulfilled (Value.ofList xs))) ∧
    (∀ (fulfilled : List (Nat × Value)) (index : Nat) (e : Value)
      (later : List (Nat × FutureState)), fulfilled.length < n →
      (w.dispatchAll program combinator
        (fulfilled.map (fun p => (p.1, FutureState.fulfilled p.2)) ++
          (index, FutureState.rejected e) :: later)).stateOf result
        = some (FutureState.rejected e)) ∧
    (∀ fulfilled : List (Nat × Value), fulfilled.length < n →
      (w.dispatchAll program combinator
        (fulfilled.map (fun p => (p.1, FutureState.fulfilled p.2)))).stateOf result
        = some FutureState.pending) ∧
    ((World.runScript idleProgram allScript 4).bind (fun final => final.stateOf 3)
      = some (FutureState.fulfilled (Value.ofList [Value.num 1, Value.num 2, Value.num 3]))) ∧
    ((World.runScript idleProgram allRejectingScript 4).bind (fun final => final.stateOf 3)
      = some (FutureState.rejected (Value.str (js "x")))) ∧
    ((World.runScript idleProgram allLateScript 4).bind (fun final => final.stateOf 2)
      = some (FutureState.rejected (Value.str (js "b")))) := by
  have hsim := fun observations =>
    World.dispatchAll_stateOf program combinator observations w
      (Combinator.fresh CombinatorKind.all n result) FutureState.pending rs a hc hf
  refine ⟨?_, ?_, ?_, by decide, by decide, by decide⟩
  · intro xs order hlen hne hperm
    subst hlen
    have h := hsim (order.map (fun i => (i, FutureState.fulfilled (xs.getD i Value.undefined))))
    have hpure := Combinator.observeAll_complete CombinatorKind.all result xs order hne hperm
    exact h.trans (congrArg some hpure)
  · intro fulfilled index e later hfew
    have h := hsim (fulfilled.map (fun p => (p.1, FutureState.fulfilled p.2)) ++
      (index, FutureState.rejected e) :: later)
    have hpure := Combinator.observeAll_decisive CombinatorKind.all result n fulfilled index e
      later hfew
    exact h.trans (congrArg some hpure)
  · intro fulfilled hfew
    have h := hsim (fulfilled.map (fun p => (p.1, FutureState.fulfilled p.2)))
    have hpure := Combinator.observeAll_incomplete CombinatorKind.all result n fulfilled hfew
    exact h.trans (congrArg some hpure)

/-- On three pending inputs whose fulfilments with 1, 2, 3 are observed in the order third,
first, second, `all` fulfills with [1, 2, 3]. -/
theorem World.all_combinator_witness :
    ((World.awaitingThree CombinatorKind.all).dispatchAll idleProgram 0
      ([2, 0, 1].map (fun i => (i, FutureState.fulfilled
        ([Value.num 1, Value.num 2, Value.num 3].getD i Value.undefined))))).stateOf 3
      = some (FutureState.fulfilled (Value.ofList [Value.num 1, Value.num 2, Value.num 3])) :=
  (World.all_combinator idleProgram (World.awaitingThree CombinatorKind.all) 0 3 3 [] none
    (by decide) (by decide)).1 [Value.num 1, Value.num 2, Value.num 3] [2, 0, 1] rfl (by simp)
    (by decide)

end FED27
